import Mathlib

/-!
Shallow embedding of the core of the skewer syslog daemon
(RELP frame splitter, RELP connection handler, parser workers,
acknowledgement forwarder, response cooker, plugin controller and
privileged binder), translated from the Go sources, together with
proofs settling the specification claims about them.

Byte strings are modelled as `List Char` (one `Char` per byte),
machine integers as `Int`/`Nat` (the claims never exercise 64-bit
overflow, so `strconv` range errors are not modelled).
-/

set_option maxHeartbeats 1600000

/-! ## Go byte/string primitives used by the sources -/

/-- The cutset " \r\n" used by bytes.TrimLeft / bytes.Trim in relp.go. -/
def isWS (c : Char) : Bool := c = ' ' || c = '\r' || c = '\n'

/-- Translation of bytes.TrimLeft(data, " \r\n"). -/
def trimLeftWS : List Char → List Char
  | [] => []
  | c :: cs => if isWS c then trimLeftWS cs else c :: cs

/-- Translation of bytes.TrimRight(data, " \r\n"). -/
def trimRightWS (l : List Char) : List Char := (trimLeftWS l.reverse).reverse

/-- Translation of bytes.Trim(data, " \r\n"). -/
def trimWS (l : List Char) : List Char := trimRightWS (trimLeftWS l)

/-- Translation of splitSpaceOrLF from relp.go. -/
def splitSpaceOrLF (r : Char) : Bool := r = ' ' || r = '\n' || r = '\r'

def fieldsFuncAux (p : Char → Bool) : List Char → List Char → List (List Char)
  | [], acc => if acc.isEmpty then [] else [acc.reverse]
  | c :: cs, acc =>
    if p c then
      if acc.isEmpty then fieldsFuncAux p cs [] else acc.reverse :: fieldsFuncAux p cs []
    else fieldsFuncAux p cs (c :: acc)

/-- Translation of bytes.FieldsFunc: maximal runs of bytes not satisfying
the predicate, in order; separators are discarded. -/
def fieldsFunc (p : Char → Bool) (l : List Char) : List (List Char) :=
  fieldsFuncAux p l []

/-- Translation of bytes.SplitN(s, sep, n) for a one-byte separator:
at most n pieces, the last piece being the unsplit remainder. -/
def splitNChar (sep : Char) : Nat → List Char → List (List Char)
  | 0, _ => []
  | 1, s => [s]
  | n + 2, s =>
    if s.contains sep then
      s.takeWhile (fun x => x ≠ sep) :: splitNChar sep (n + 1) (s.dropWhile (fun x => x ≠ sep)).tail
    else [s]

/-- Value of an ASCII decimal digit. -/
def digitVal (c : Char) : Option Nat :=
  if '0' ≤ c ∧ c ≤ '9' then some (c.toNat - '0'.toNat) else none

def parseDigitsAux : Nat → List Char → Option Nat
  | acc, [] => some acc
  | acc, c :: cs =>
    match digitVal c with
    | some d => parseDigitsAux (acc * 10 + d) cs
    | none => none

def parseDigits : List Char → Option Nat
  | [] => none
  | l => parseDigitsAux 0 l

/-- Translation of strconv.Atoi: optional sign followed by at least one
decimal digit; anything else is an error (`none`). 64-bit range errors
are not modelled. -/
def goAtoi (s : List Char) : Option Int :=
  match s with
  | [] => none
  | c :: rest =>
    if c = '+' then (parseDigits rest).map (fun n => (n : Int))
    else if c = '-' then (parseDigits rest).map (fun n => -(n : Int))
    else (parseDigits s).map (fun n => (n : Int))

/-- Result of `x, _ := strconv.Atoi(s)` in Go: the zero value 0 on error. -/
def atoiOr0 (s : List Char) : Int := (goAtoi s).getD 0

def digitChar (d : Nat) : Char :=
  if d = 0 then '0' else if d = 1 then '1' else if d = 2 then '2'
  else if d = 3 then '3' else if d = 4 then '4' else if d = 5 then '5'
  else if d = 6 then '6' else if d = 7 then '7' else if d = 8 then '8'
  else if d = 9 then '9' else '?'

def natToDecAux : Nat → Nat → List Char
  | 0, _ => []
  | fuel + 1, n => if n = 0 then [] else natToDecAux fuel (n / 10) ++ [digitChar (n % 10)]

/-- Decimal representation of a natural number, as fmt.Sprintf %d prints it. -/
def natToDec (n : Nat) : List Char :=
  if n = 0 then ['0'] else natToDecAux n n

/-- Decimal representation of a Go int, as fmt.Sprintf %d prints it. -/
def intToDec (n : Int) : List Char :=
  if n < 0 then '-' :: natToDec (-n).toNat else natToDec n.toNat

/-! ### Decimal print/parse round-trip -/

lemma digitChar_cases (d : Nat) :
    digitChar d ∈ ['0', '1', '2', '3', '4', '5', '6', '7', '8', '9', '?'] := by
  unfold digitChar
  repeat' split
  all_goals simp

lemma digitChar_not_sign (d : Nat) : digitChar d ≠ '+' ∧ digitChar d ≠ '-' := by
  have h := digitChar_cases d
  simp only [List.mem_cons, List.not_mem_nil, or_false] at h
  rcases h with h | h | h | h | h | h | h | h | h | h | h <;> rw [h] <;>
    exact ⟨by decide, by decide⟩

lemma digitChar_not_ws (d : Nat) :
    splitSpaceOrLF (digitChar d) = false ∧ isWS (digitChar d) = false ∧ digitChar d ≠ ' ' := by
  have h := digitChar_cases d
  simp only [List.mem_cons, List.not_mem_nil, or_false] at h
  rcases h with h | h | h | h | h | h | h | h | h | h | h <;> rw [h] <;>
    exact ⟨by decide, by decide, by decide⟩

lemma digitVal_digitChar (d : Nat) (h : d < 10) : digitVal (digitChar d) = some d := by
  interval_cases d <;> decide

lemma parseDigitsAux_map_digitChar (B : List Nat) (hB : ∀ d ∈ B, d < 10) :
    ∀ acc, parseDigitsAux acc (B.map digitChar) =
      some (B.foldl (fun a d => 10 * a + d) acc) := by
  induction B with
  | nil => intro acc; simp [parseDigitsAux]
  | cons d T ih =>
    intro acc
    have hd : d < 10 := hB d (by simp)
    have hT : ∀ x ∈ T, x < 10 := fun x hx => hB x (by simp [hx])
    simp only [List.map_cons, parseDigitsAux, digitVal_digitChar d hd]
    rw [ih hT]
    simp [List.foldl_cons, Nat.mul_comm]

lemma foldl_reverse_ofDigits (L : List Nat) :
    ∀ acc, L.reverse.foldl (fun a d => 10 * a + d) acc =
      acc * 10 ^ L.length + Nat.ofDigits 10 L := by
  induction L with
  | nil => intro acc; simp [Nat.ofDigits]
  | cons d T ih =>
    intro acc
    rw [List.reverse_cons, List.foldl_append, ih acc]
    simp only [List.foldl_cons, List.foldl_nil, Nat.ofDigits_cons, List.length_cons]
    ring

lemma natToDecAux_spec (fuel : Nat) :
    ∀ n, n ≤ fuel → natToDecAux fuel n = ((Nat.digits 10 n).map digitChar).reverse := by
  induction fuel with
  | zero =>
    intro n hn
    interval_cases n
    simp [natToDecAux]
  | succ fuel ih =>
    intro n hn
    by_cases h0 : n = 0
    · subst h0; simp [natToDecAux]
    · have hdig : Nat.digits 10 n = n % 10 :: Nat.digits 10 (n / 10) :=
        Nat.digits_def' (by norm_num) (Nat.pos_of_ne_zero h0)
      have hdiv : n / 10 ≤ fuel := by
        have : n / 10 < n := Nat.div_lt_self (Nat.pos_of_ne_zero h0) (by norm_num)
        omega
      simp only [natToDecAux, h0, if_false, ih (n / 10) hdiv, hdig,
        List.map_cons, List.reverse_cons]

lemma natToDec_eq_digits (n : Nat) :
    natToDec n = if n = 0 then ['0'] else ((Nat.digits 10 n).map digitChar).reverse := by
  by_cases h0 : n = 0
  · simp [natToDec, h0]
  · simp [natToDec, h0, natToDecAux_spec n n (Nat.le_refl n)]

lemma parseDigits_natToDec (n : Nat) : parseDigits (natToDec n) = some n := by
  by_cases h0 : n = 0
  · subst h0; decide
  · have hne : Nat.digits 10 n ≠ [] := Nat.digits_ne_nil_iff_ne_zero.mpr h0
    have hlt : ∀ d ∈ Nat.digits 10 n, d < 10 :=
      fun d hd => Nat.digits_lt_base (by norm_num) hd
    have hrev : natToDec n = ((Nat.digits 10 n).reverse).map digitChar := by
      simp [natToDec_eq_digits, h0, List.map_reverse]
    have hrevlt : ∀ d ∈ (Nat.digits 10 n).reverse, d < 10 := by
      intro d hd; exact hlt d (List.mem_reverse.mp hd)
    have hrevne : (Nat.digits 10 n).reverse ≠ [] := by
      simpa using hne
    rw [hrev]
    have : parseDigitsAux 0 (((Nat.digits 10 n).reverse).map digitChar) =
        some ((Nat.digits 10 n).reverse.foldl (fun a d => 10 * a + d) 0) :=
      parseDigitsAux_map_digitChar _ hrevlt 0
    have hfold : (Nat.digits 10 n).reverse.foldl (fun a d => 10 * a + d) 0 = n := by
      rw [foldl_reverse_ofDigits, Nat.ofDigits_digits]
      simp
    rcases List.exists_cons_of_ne_nil hrevne with ⟨d, T, hdT⟩
    rw [hdT] at this hfold ⊢
    simpa [parseDigits, hfold] using this

lemma natToDec_ne_nil (n : Nat) : natToDec n ≠ [] := by
  by_cases h0 : n = 0
  · subst h0; decide
  · have hne : Nat.digits 10 n ≠ [] := Nat.digits_ne_nil_iff_ne_zero.mpr h0
    simp [natToDec_eq_digits, h0, hne]

lemma natToDec_mem (n : Nat) (c : Char) (hc : c ∈ natToDec n) :
    ∃ d, c = digitChar d := by
  rw [natToDec_eq_digits] at hc
  by_cases h0 : n = 0
  · subst h0; simp at hc; exact ⟨0, by simp [hc, digitChar]⟩
  · simp only [h0, if_false, List.mem_reverse, List.mem_map] at hc
    obtain ⟨d, _, hd⟩ := hc
    exact ⟨d, hd.symm⟩

lemma natToDec_not_ws (n : Nat) (c : Char) (hc : c ∈ natToDec n) :
    splitSpaceOrLF c = false ∧ isWS c = false := by
  obtain ⟨d, rfl⟩ := natToDec_mem n c hc
  exact ⟨(digitChar_not_ws d).1, (digitChar_not_ws d).2.1⟩

lemma goAtoi_natToDec (n : Nat) : goAtoi (natToDec n) = some (n : Int) := by
  rcases hd : natToDec n with _ | ⟨c, cs⟩
  · exact absurd hd (natToDec_ne_nil n)
  · have hc : c ∈ natToDec n := by rw [hd]; simp
    obtain ⟨d, rfl⟩ := natToDec_mem n c hc
    have hp : parseDigits (natToDec n) = some n := parseDigits_natToDec n
    rw [hd] at hp
    simp [goAtoi, (digitChar_not_sign d).1, (digitChar_not_sign d).2, hp]

lemma atoiOr0_natToDec (n : Nat) : atoiOr0 (natToDec n) = (n : Int) := by
  simp [atoiOr0, goAtoi_natToDec]

/-! ## The RELP frame splitter (RelpSplit, relp.go) -/

/-- Result of one bufio splitter call: `more` is Go (0, nil, nil)
(consume nothing, request more data), `err` a framing error, and
`frame advance token` consumes `advance` bytes yielding `token`. -/
inductive SplitRes where
  | more : SplitRes
  | err : SplitRes
  | frame : Nat → List Char → SplitRes
deriving DecidableEq, Repr

/-- Translation of RelpSplit from relp.go, byte for byte: trim leading
whitespace, extract the three whitespace-separated header tokens, request
more data when fewer than three tokens exist or when exactly three tokens
end at the buffer boundary, parse TXNR and DATALEN as decimals (error if
non-numeric), finish at the header when DATALEN is 0, and otherwise claim
the frame only once DATALEN + 1 further bytes are buffered. -/
def relpSplit (data : List Char) (atEOF : Bool) : SplitRes :=
  let trimmedData := trimLeftWS data
  if trimmedData.length = 0 then .more
  else
    let splits := fieldsFunc splitSpaceOrLF trimmedData
    let l := splits.length
    if l < 3 then .more
    else
      let txnrStr := splits.getD 0 []
      let command := splits.getD 1 []
      let datalenStr := splits.getD 2 []
      let tokenStr := txnrStr ++ ' ' :: command ++ ' ' :: datalenStr
      let advance := data.length - trimmedData.length + tokenStr.length + 1
      if l = 3 ∧ data.length < advance then .more
      else
        match goAtoi txnrStr with
        | none => .err
        | some _ =>
          match goAtoi datalenStr with
          | none => .err
          | some datalen =>
            if datalen = 0 then .frame advance tokenStr
            else
              let advance2 : Int := (advance : Int) + datalen + 1
              if (data.length : Int) ≥ advance2 then
                .frame advance2.toNat (trimWS (data.take advance2.toNat))
              else .more

/-- The whitespace-trimmed buffer RelpSplit works on. -/
def relpTrimmed (data : List Char) : List Char := trimLeftWS data

/-- The whitespace-separated tokens RelpSplit sees. -/
def relpSplits (data : List Char) : List (List Char) :=
  fieldsFunc splitSpaceOrLF (relpTrimmed data)

/-- The header advance RelpSplit computes (bytes up to and including the
separator after the DATALEN token). -/
def relpAdvance (data : List Char) : Nat :=
  data.length - (relpTrimmed data).length +
    ((relpSplits data).getD 0 [] ++ ' ' :: (relpSplits data).getD 1 [] ++
      ' ' :: (relpSplits data).getD 2 []).length + 1

lemma relpSplit_unfold (data : List Char) (b : Bool) :
    relpSplit data b =
      if (relpTrimmed data).length = 0 then .more
      else if (relpSplits data).length < 3 then .more
      else if (relpSplits data).length = 3 ∧ data.length < relpAdvance data then .more
      else
        match goAtoi ((relpSplits data).getD 0 []) with
        | none => .err
        | some _ =>
          match goAtoi ((relpSplits data).getD 2 []) with
          | none => .err
          | some datalen =>
            if datalen = 0 then
              .frame (relpAdvance data)
                ((relpSplits data).getD 0 [] ++ ' ' :: (relpSplits data).getD 1 [] ++
                  ' ' :: (relpSplits data).getD 2 [])
            else
              if (data.length : Int) ≥ (relpAdvance data : Int) + datalen + 1 then
                .frame ((relpAdvance data : Int) + datalen + 1).toNat
                  (trimWS (data.take ((relpAdvance data : Int) + datalen + 1).toNat))
              else .more := rfl

lemma relpSplits_length_pos_trimmed (data : List Char)
    (h : 1 ≤ (relpSplits data).length) : (relpTrimmed data).length ≠ 0 := by
  intro h0
  have : relpTrimmed data = [] := List.length_eq_zero.mp h0
  rw [relpSplits, this] at h
  simp [fieldsFunc, fieldsFuncAux] at h

lemma relpSplit_cases (data : List Char) (b : Bool) :
    ((relpSplits data).length < 3 → relpSplit data b = .more) ∧
    ((relpSplits data).length = 3 → data.length < relpAdvance data →
      relpSplit data b = .more) ∧
    (3 ≤ (relpSplits data).length →
      ((relpSplits data).length = 3 → relpAdvance data ≤ data.length) →
      (goAtoi ((relpSplits data).getD 0 []) = none ∨
        goAtoi ((relpSplits data).getD 2 []) = none) →
      relpSplit data b = .err) ∧
    (∀ t : Int, 3 ≤ (relpSplits data).length →
      ((relpSplits data).length = 3 → relpAdvance data ≤ data.length) →
      goAtoi ((relpSplits data).getD 0 []) = some t →
      goAtoi ((relpSplits data).getD 2 []) = some 0 →
      relpSplit data b = .frame (relpAdvance data)
        ((relpSplits data).getD 0 [] ++ ' ' :: (relpSplits data).getD 1 [] ++
          ' ' :: (relpSplits data).getD 2 [])) ∧
    (∀ t dl : Int, 3 ≤ (relpSplits data).length →
      ((relpSplits data).length = 3 → relpAdvance data ≤ data.length) →
      goAtoi ((relpSplits data).getD 0 []) = some t →
      goAtoi ((relpSplits data).getD 2 []) = some dl → dl ≠ 0 →
      ((relpAdvance data : Int) + dl + 1 ≤ (data.length : Int) →
        relpSplit data b = .frame ((relpAdvance data : Int) + dl + 1).toNat
          (trimWS (data.take ((relpAdvance data : Int) + dl + 1).toNat))) ∧
      ((data.length : Int) < (relpAdvance data : Int) + dl + 1 →
        relpSplit data b = .more)) := by
  refine ⟨?_, ?_, ?_, ?_, ?_⟩
  · intro h
    rw [relpSplit_unfold]
    by_cases h0 : (relpTrimmed data).length = 0
    · simp [h0]
    · simp [h0, if_pos h]
  · intro h3 hlt
    have h0 := relpSplits_length_pos_trimmed data (by omega)
    rw [relpSplit_unfold]
    simp only [h0, if_false]
    rw [if_neg (by omega), if_pos ⟨h3, hlt⟩]
  · intro hge hbound herr
    have h0 := relpSplits_length_pos_trimmed data (by omega)
    rw [relpSplit_unfold]
    simp only [h0, if_false]
    rw [if_neg (by omega), if_neg (by rintro ⟨he, hl⟩; exact absurd (hbound he) (by omega))]
    rcases herr with herr | herr
    · rw [herr]
    · rcases h1 : goAtoi ((relpSplits data).getD 0 []) with _ | t
      · rfl
      · rw [herr]
  · intro t hge hbound h1 h2
    have h0 := relpSplits_length_pos_trimmed data (by omega)
    rw [relpSplit_unfold]
    simp only [h0, if_false]
    rw [if_neg (by omega), if_neg (by rintro ⟨he, hl⟩; exact absurd (hbound he) (by omega))]
    rw [h1, h2]
    simp
  · intro t dl hge hbound h1 h2 hdl
    have h0 := relpSplits_length_pos_trimmed data (by omega)
    constructor
    · intro hav
      rw [relpSplit_unfold]
      simp only [h0, if_false]
      rw [if_neg (by omega), if_neg (by rintro ⟨he, hl⟩; exact absurd (hbound he) (by omega))]
      rw [h1, h2]
      simp only [hdl, if_false]
      rw [if_pos (by omega)]
    · intro hav
      rw [relpSplit_unfold]
      simp only [h0, if_false]
      rw [if_neg (by omega), if_neg (by rintro ⟨he, hl⟩; exact absurd (hbound he) (by omega))]
      rw [h1, h2]
      simp only [hdl, if_false]
      rw [if_neg (by omega)]

/-- C3: RelpSplit behaves as the spec splitter algorithm (amended): with
fewer than three whitespace-separated tokens it consumes nothing and
requests more data; with exactly three tokens ending at the buffer
boundary it also requests more data (header possibly incomplete); once
past that check, a non-decimal TXNR or DATALEN token is a framing error;
a DATALEN of 0 completes the frame at the header; a non-zero DATALEN
yields a frame only once DATALEN + 1 further bytes are buffered, and with
fewer bytes (payload ending at the buffer boundary included) it consumes
nothing and requests more data. -/
theorem relpSplit_behaviour (data : List Char) (b : Bool) :
    ((relpSplits data).length < 3 → relpSplit data b = .more) ∧
    ((relpSplits data).length = 3 → data.length < relpAdvance data →
      relpSplit data b = .more) ∧
    (3 ≤ (relpSplits data).length →
      ((relpSplits data).length = 3 → relpAdvance data ≤ data.length) →
      (goAtoi ((relpSplits data).getD 0 []) = none ∨
        goAtoi ((relpSplits data).getD 2 []) = none) →
      relpSplit data b = .err) ∧
    (∀ t : Int, 3 ≤ (relpSplits data).length →
      ((relpSplits data).length = 3 → relpAdvance data ≤ data.length) →
      goAtoi ((relpSplits data).getD 0 []) = some t →
      goAtoi ((relpSplits data).getD 2 []) = some 0 →
      relpSplit data b = .frame (relpAdvance data)
        ((relpSplits data).getD 0 [] ++ ' ' :: (relpSplits data).getD 1 [] ++
          ' ' :: (relpSplits data).getD 2 [])) ∧
    (∀ t dl : Int, 3 ≤ (relpSplits data).length →
      ((relpSplits data).length = 3 → relpAdvance data ≤ data.length) →
      goAtoi ((relpSplits data).getD 0 []) = some t →
      goAtoi ((relpSplits data).getD 2 []) = some dl → dl ≠ 0 →
      ((relpAdvance data : Int) + dl + 1 ≤ (data.length : Int) →
        relpSplit data b = .frame ((relpAdvance data : Int) + dl + 1).toNat
          (trimWS (data.take ((relpAdvance data : Int) + dl + 1).toNat))) ∧
      ((data.length : Int) < (relpAdvance data : Int) + dl + 1 →
        relpSplit data b = .more)) :=
  relpSplit_cases data b

/-- C3 counterexample to the claim as frozen: the buffer "1x open 0" holds
three complete-looking tokens with a non-decimal TXNR, yet RelpSplit
requests more data instead of returning a framing error, because exactly
three tokens end at the buffer boundary. -/
theorem relpSplit_nonnumeric_at_boundary_no_error :
    relpSplits "1x open 0".data = ["1x".data, "open".data, "0".data] ∧
    goAtoi "1x".data = none ∧
    relpSplit "1x open 0".data false = SplitRes.more ∧
    SplitRes.more ≠ SplitRes.err := by
  refine ⟨by decide, by decide, by decide, by decide⟩

/-- Witness for relpSplit_behaviour at concrete inputs. -/
theorem relpSplit_behaviour_witness :
    relpSplit "12 op".data false = SplitRes.more ∧
    relpSplit "3 syslog 4 te".data false = SplitRes.more ∧
    relpSplit "3 syslog 4 test\n".data false =
      SplitRes.frame 16 "3 syslog 4 test".data := by
  refine ⟨?_, ?_, ?_⟩
  · exact (relpSplit_behaviour "12 op".data false).1 (by decide)
  · exact (((relpSplit_behaviour "3 syslog 4 te".data false).2.2.2.2 3 4 (by decide)
      (by decide) (by decide) (by decide) (by decide)).2 (by decide))
  · exact (((relpSplit_behaviour "3 syslog 4 test\n".data false).2.2.2.2 3 4 (by decide)
      (by decide) (by decide) (by decide) (by decide)).1 (by decide))

/-! ## Field and token decomposition lemmas -/

lemma takeWhile_append_stop (q : Char → Bool) (w : List Char) (s : Char) (rest : List Char)
    (hall : ∀ c ∈ w, q c = true) (hs : q s = false) :
    (w ++ s :: rest).takeWhile q = w := by
  induction w with
  | nil => simp [List.takeWhile, hs]
  | cons c cs ih =>
    have hc : q c = true := hall c (by simp)
    have hcs : ∀ x ∈ cs, q x = true := fun x hx => hall x (by simp [hx])
    simp [List.takeWhile_cons, hc, ih hcs]

lemma dropWhile_append_stop (q : Char → Bool) (w : List Char) (s : Char) (rest : List Char)
    (hall : ∀ c ∈ w, q c = true) (hs : q s = false) :
    (w ++ s :: rest).dropWhile q = s :: rest := by
  induction w with
  | nil => simp [List.dropWhile, hs]
  | cons c cs ih =>
    have hc : q c = true := hall c (by simp)
    have hcs : ∀ x ∈ cs, q x = true := fun x hx => hall x (by simp [hx])
    simp [List.dropWhile_cons, hc, ih hcs]

lemma fieldsFuncAux_skip (p : Char → Bool) (w : List Char)
    (hall : ∀ c ∈ w, p c = false) :
    ∀ (l acc : List Char), fieldsFuncAux p (w ++ l) acc = fieldsFuncAux p l (w.reverse ++ acc) := by
  induction w with
  | nil => intro l acc; simp
  | cons c cs ih =>
    intro l acc
    have hc : p c = false := hall c (by simp)
    have hcs : ∀ x ∈ cs, p x = false := fun x hx => hall x (by simp [hx])
    simp only [List.cons_append, fieldsFuncAux, hc, if_false, Bool.false_eq_true,
      List.append_eq]
    rw [ih hcs l (c :: acc)]
    simp

lemma fieldsFuncAux_ne_nil (p : Char → Bool) (l : List Char) :
    ∀ acc, acc ≠ [] → fieldsFuncAux p l acc ≠ [] := by
  induction l with
  | nil =>
    intro acc hacc
    simp only [fieldsFuncAux]
    rw [if_neg (by simpa using hacc)]
    simp
  | cons c cs ih =>
    intro acc hacc
    simp only [fieldsFuncAux]
    by_cases hc : p c
    · rw [if_pos hc, if_neg (by simpa using hacc)]
      simp
    · rw [if_neg hc]
      exact ih (c :: acc) (by simp)

lemma fieldsFunc_field_sep (p : Char → Bool) (w : List Char) (s : Char) (rest : List Char)
    (hw : w ≠ []) (hall : ∀ c ∈ w, p c = false) (hs : p s = true) :
    fieldsFunc p (w ++ s :: rest) = w :: fieldsFunc p rest := by
  rw [fieldsFunc, fieldsFuncAux_skip p w hall (s :: rest) []]
  simp only [List.append_nil, fieldsFuncAux, hs, if_true]
  rw [if_neg (by simpa using hw)]
  simp [fieldsFunc]

lemma fieldsFunc_single (p : Char → Bool) (w : List Char)
    (hw : w ≠ []) (hall : ∀ c ∈ w, p c = false) :
    fieldsFunc p w = [w] := by
  rw [fieldsFunc, ← List.append_nil w, fieldsFuncAux_skip p w hall [] []]
  simp only [List.append_nil, fieldsFuncAux]
  rw [if_neg (by simpa using hw)]
  simp

lemma fieldsFunc_cons_head (p : Char → Bool) (c : Char) (cs : List Char)
    (hc : p c = false) : fieldsFunc p (c :: cs) ≠ [] := by
  rw [fieldsFunc]
  simp only [fieldsFuncAux, hc, Bool.false_eq_true, if_false]
  exact fieldsFuncAux_ne_nil p cs [c] (by simp)

lemma splitNChar_step (sep : Char) (n : Nat) (w rest : List Char)
    (hw : ∀ c ∈ w, c ≠ sep) :
    splitNChar sep (n + 2) (w ++ sep :: rest) = w :: splitNChar sep (n + 1) rest := by
  have hcont : (w ++ sep :: rest).contains sep = true := by
    simp [List.elem_eq_mem, List.contains]
  have htake : (w ++ sep :: rest).takeWhile (fun x => x ≠ sep) = w :=
    takeWhile_append_stop _ w sep rest
      (fun c hc => by simpa using hw c hc) (by simp)
  have hdrop : (w ++ sep :: rest).dropWhile (fun x => x ≠ sep) = sep :: rest :=
    dropWhile_append_stop _ w sep rest
      (fun c hc => by simpa using hw c hc) (by simp)
  simp only [splitNChar, hcont, if_true, htake, hdrop, List.tail_cons]

lemma trimLeftWS_cons_keep (c : Char) (cs : List Char) (hc : isWS c = false) :
    trimLeftWS (c :: cs) = c :: cs := by
  simp [trimLeftWS, hc]

lemma trimRightWS_concat_keep (l : List Char) (c : Char) (hc : isWS c = false) :
    trimRightWS (l ++ [c]) = l ++ [c] := by
  rw [trimRightWS, List.reverse_append]
  simp only [List.reverse_cons, List.reverse_nil, List.nil_append, List.singleton_append]
  rw [trimLeftWS_cons_keep c l.reverse hc]
  simp

lemma trimRightWS_concat_ws (l : List Char) (c : Char) (hc : isWS c = true) :
    trimRightWS (l ++ [c]) = trimRightWS l := by
  rw [trimRightWS, trimRightWS, List.reverse_append]
  simp only [List.reverse_cons, List.reverse_nil, List.nil_append, List.singleton_append]
  simp [trimLeftWS, hc]

/-! ## The RELP framer (spec wire format) and the splitter round-trip -/

/-- A RELP frame as the client composes it: transaction number, command
and payload; DATALEN on the wire is the byte length of the payload. -/
structure RelpFrame where
  txnr : Nat
  command : List Char
  data : List Char
deriving DecidableEq, Repr

/-- The spec wire format TXNR SP COMMAND SP DATALEN (SP DATA)? LF,
with DATALEN the byte length of DATA. -/
def encodeRelpFrame (f : RelpFrame) : List Char :=
  natToDec f.txnr ++ (' ' :: (f.command ++ (' ' :: (natToDec f.data.length ++
    ((if f.data.isEmpty then [] else ' ' :: f.data) ++ ['\n'])))))

/-- A valid RELP frame stream, frames concatenated on the wire. -/
def encodeRelpStream (fs : List RelpFrame) : List Char :=
  (fs.map encodeRelpFrame).join

/-- The token the splitter hands the connection handler for a frame:
the frame with its trailing LF removed. -/
def relpTokenOf (f : RelpFrame) : List Char :=
  natToDec f.txnr ++ (' ' :: (f.command ++ (' ' :: (natToDec f.data.length ++
    (if f.data.isEmpty then [] else ' ' :: f.data)))))

/-- Frames the round-trip law quantifies over: a nonempty command without
whitespace, and a payload that neither starts nor ends with a whitespace
byte (interior whitespace is allowed). -/
def validRelpFrame (f : RelpFrame) : Bool :=
  !f.command.isEmpty &&
  f.command.all (fun c => !splitSpaceOrLF c) &&
  f.data.head?.all (fun c => !splitSpaceOrLF c) &&
  f.data.getLast?.all (fun c => !splitSpaceOrLF c)

/-- The scanner loop of HandleConnection: repeatedly apply RelpSplit,
consuming the advance and collecting the tokens; stop on anything that
is not a complete frame. One unit of fuel is spent per frame. -/
def runSplitter : Nat → List Char → List (List Char)
  | 0, _ => []
  | fuel + 1, data =>
    match relpSplit data false with
    | .frame advance token => token :: runSplitter fuel (data.drop advance)
    | _ => []

/-- Extraction of txnr, command and payload from a scanner token, as the
HandleConnection loop body performs it (SplitN on single spaces into at
most 4 parts, payload trimmed). -/
def decodeRelpToken (tok : List Char) : Int × List Char × List Char :=
  let splits := splitNChar ' ' 4 tok
  let txnr := atoiOr0 (splits.getD 0 [])
  let datalen := atoiOr0 (splits.getD 2 [])
  let data :=
    if datalen ≠ 0 then
      if splits.length = 4 then trimWS (splits.getD 3 []) else []
    else []
  (txnr, splits.getD 1 [], data)

lemma isWS_eq_splitSpaceOrLF (c : Char) : isWS c = splitSpaceOrLF c := by
  simp only [isWS, splitSpaceOrLF]
  by_cases h1 : c = ' ' <;> by_cases h2 : c = '\r' <;> by_cases h3 : c = '\n' <;>
    simp [h1, h2, h3]

lemma validRelpFrame_parts (f : RelpFrame) (hv : validRelpFrame f = true) :
    f.command ≠ [] ∧ (∀ c ∈ f.command, splitSpaceOrLF c = false) ∧
    (∀ c, f.data.head? = some c → splitSpaceOrLF c = false) ∧
    (∀ c, f.data.getLast? = some c → splitSpaceOrLF c = false) := by
  simp only [validRelpFrame, Bool.and_eq_true] at hv
  obtain ⟨⟨⟨h1, h2⟩, h3⟩, h4⟩ := hv
  refine ⟨by simpa [List.isEmpty_iff] using h1, ?_, ?_, ?_⟩
  · intro c hc
    have := (List.all_eq_true.mp h2) c hc
    simpa using this
  · intro c hc
    rw [hc] at h3
    simpa [Option.all] using h3
  · intro c hc
    rw [hc] at h4
    simpa [Option.all] using h4

lemma relpSplit_encodeFrame (f : RelpFrame) (rest : List Char) (b : Bool)
    (hv : validRelpFrame f = true) :
    relpSplit (encodeRelpFrame f ++ rest) b =
      .frame (encodeRelpFrame f).length (relpTokenOf f) := by
  obtain ⟨hCne, hCws, hDh, hDl⟩ := validRelpFrame_parts f hv
  have hTne : natToDec f.txnr ≠ [] := natToDec_ne_nil _
  have hLne : natToDec f.data.length ≠ [] := natToDec_ne_nil _
  have hTws : ∀ c ∈ natToDec f.txnr, splitSpaceOrLF c = false :=
    fun c hc => (natToDec_not_ws _ c hc).1
  have hLws : ∀ c ∈ natToDec f.data.length, splitSpaceOrLF c = false :=
    fun c hc => (natToDec_not_ws _ c hc).1
  have hsp : splitSpaceOrLF ' ' = true := by decide
  have hlf : splitSpaceOrLF '\n' = true := by decide
  obtain ⟨t0, T', hT0⟩ := List.exists_cons_of_ne_nil hTne
  have ht0ws : isWS t0 = false := by
    rw [isWS_eq_splitSpaceOrLF]
    exact hTws t0 (by rw [hT0]; simp)
  have hdata : encodeRelpFrame f ++ rest =
      natToDec f.txnr ++ ' ' :: (f.command ++ ' ' :: (natToDec f.data.length ++
        ((if f.data.isEmpty then [] else ' ' :: f.data) ++ '\n' :: rest))) := by
    simp [encodeRelpFrame, List.append_assoc]
  have htrim : relpTrimmed (encodeRelpFrame f ++ rest) = encodeRelpFrame f ++ rest := by
    rw [relpTrimmed, hdata, hT0, List.cons_append, trimLeftWS_cons_keep t0 _ ht0ws]
  by_cases hDe : f.data.isEmpty
  · -- empty payload: DATALEN is 0 and the frame ends at the header
    have hD : f.data = [] := List.isEmpty_iff.mp hDe
    have hsplits : relpSplits (encodeRelpFrame f ++ rest) =
        natToDec f.txnr :: f.command :: natToDec f.data.length ::
          fieldsFunc splitSpaceOrLF rest := by
      rw [relpSplits, htrim, hdata, hDe, if_pos rfl, List.nil_append]
      rw [fieldsFunc_field_sep _ _ _ _ hTne hTws hsp,
        fieldsFunc_field_sep _ _ _ _ hCne hCws hsp,
        fieldsFunc_field_sep _ _ _ _ hLne hLws hlf]
    have hadv : relpAdvance (encodeRelpFrame f ++ rest) =
        (natToDec f.txnr).length + f.command.length + (natToDec f.data.length).length + 3 := by
      rw [relpAdvance, htrim, hsplits]
      simp [List.length_append]
      omega
    have henclen : (encodeRelpFrame f).length =
        (natToDec f.txnr).length + f.command.length + (natToDec f.data.length).length + 3 := by
      simp [encodeRelpFrame, hDe, List.length_append]
      omega
    have h4 := (relpSplit_cases (encodeRelpFrame f ++ rest) b).2.2.2.1 (f.txnr : Int)
      (by rw [hsplits]; simp)
      (by
        intro _
        rw [hadv]
        have : (encodeRelpFrame f ++ rest).length =
            (encodeRelpFrame f).length + rest.length := by simp
        omega)
      (by rw [hsplits]; simpa using goAtoi_natToDec f.txnr)
      (by rw [hsplits]; simp [hD]; simpa using goAtoi_natToDec 0)
    rw [h4, hsplits]
    have hAd : relpAdvance (encodeRelpFrame f ++ rest) = (encodeRelpFrame f).length := by
      omega
    rw [hAd]
    simp [relpTokenOf, hDe]
  · -- nonempty payload
    have hD : f.data ≠ [] := by
      intro h
      rw [h] at hDe
      simp at hDe
    obtain ⟨d0, D'', hD0⟩ := List.exists_cons_of_ne_nil hD
    have hd0ws : splitSpaceOrLF d0 = false := hDh d0 (by rw [hD0]; rfl)
    have hSne : fieldsFunc splitSpaceOrLF (f.data ++ '\n' :: rest) ≠ [] := by
      rw [hD0, List.cons_append]
      exact fieldsFunc_cons_head _ d0 _ hd0ws
    have hsplits : relpSplits (encodeRelpFrame f ++ rest) =
        natToDec f.txnr :: f.command :: natToDec f.data.length ::
          fieldsFunc splitSpaceOrLF (f.data ++ '\n' :: rest) := by
      rw [relpSplits, htrim, hdata, if_neg (by simp [hDe]), List.cons_append]
      rw [show (' ' :: (f.data ++ '\n' :: rest) : List Char) =
        ' ' :: (f.data ++ '\n' :: rest) from rfl]
      rw [fieldsFunc_field_sep _ _ _ _ hTne hTws hsp,
        fieldsFunc_field_sep _ _ _ _ hCne hCws hsp,
        fieldsFunc_field_sep _ _ _ _ hLne hLws hsp]
    have hSlen : 1 ≤ (fieldsFunc splitSpaceOrLF (f.data ++ '\n' :: rest)).length := by
      rcases h : fieldsFunc splitSpaceOrLF (f.data ++ '\n' :: rest) with _ | ⟨x, xs⟩
      · exact absurd h hSne
      · simp
    have hlen4 : 4 ≤ (relpSplits (encodeRelpFrame f ++ rest)).length := by
      rw [hsplits]
      simp
      omega
    have hadv : relpAdvance (encodeRelpFrame f ++ rest) =
        (natToDec f.txnr).length + f.command.length + (natToDec f.data.length).length + 3 := by
      rw [relpAdvance, htrim, hsplits]
      simp [List.length_append]
      omega
    have henclen : (encodeRelpFrame f).length =
        (natToDec f.txnr).length + f.command.length + (natToDec f.data.length).length +
          f.data.length + 4 := by
      simp [encodeRelpFrame, hD, List.length_append]
      omega
    have hdlen0 : ((f.data.length : Int)) ≠ 0 := by
      have : 0 < f.data.length := List.length_pos.mpr hD
      omega
    have h5 := ((relpSplit_cases (encodeRelpFrame f ++ rest) b).2.2.2.2 (f.txnr : Int)
      (f.data.length : Int)
      (by omega)
      (by intro h3; rw [hsplits] at h3; simp at h3; exact absurd h3 hSne)
      (by rw [hsplits]; simpa using goAtoi_natToDec f.txnr)
      (by rw [hsplits]; simpa using goAtoi_natToDec f.data.length)
      hdlen0).1
      (by
        have : (encodeRelpFrame f ++ rest).length =
            (encodeRelpFrame f).length + rest.length := by simp
        omega)
    have htoNat : ((relpAdvance (encodeRelpFrame f ++ rest) : Int) +
        (f.data.length : Int) + 1).toNat = (encodeRelpFrame f).length := by
      omega
    rw [h5, htoNat, List.take_left]
    -- trim the trailing LF from the claimed frame
    obtain ⟨D0, dl, hDdec⟩ : ∃ D0 dl, f.data = D0 ++ [dl] := by
      rcases List.eq_nil_or_concat f.data with h | ⟨D0, dl, h⟩
      · exact absurd h hD
      · exact ⟨D0, dl, by rw [h, List.concat_eq_append]⟩
    have hdlws : isWS dl = false := by
      rw [isWS_eq_splitSpaceOrLF]
      exact hDl dl (by rw [hDdec]; simp)
    have henc2 : encodeRelpFrame f = relpTokenOf f ++ ['\n'] := by
      simp [encodeRelpFrame, relpTokenOf, if_neg hDe, List.append_assoc]
    have htok2 : relpTokenOf f =
        (natToDec f.txnr ++ ' ' :: (f.command ++ ' ' :: (natToDec f.data.length ++
          ' ' :: D0)) ) ++ [dl] := by
      simp [relpTokenOf, if_neg hDe, hDdec, List.append_assoc]
    have htrimtok : trimWS (encodeRelpFrame f) = relpTokenOf f := by
      rw [trimWS]
      have htl : trimLeftWS (encodeRelpFrame f) = encodeRelpFrame f := by
        rw [encodeRelpFrame, hT0, List.cons_append, trimLeftWS_cons_keep t0 _ ht0ws]
      rw [htl, henc2, trimRightWS_concat_ws _ _ (by decide), htok2,
        trimRightWS_concat_keep _ _ hdlws]
    rw [htrimtok]

lemma not_ws_ne_space (c : Char) (h : splitSpaceOrLF c = false) : c ≠ ' ' := by
  intro he
  rw [he] at h
  simp [splitSpaceOrLF] at h

lemma splitNChar_no_sep (sep : Char) (n : Nat) (w : List Char)
    (hw : ∀ c ∈ w, c ≠ sep) : splitNChar sep (n + 2) w = [w] := by
  have hcont : w.contains sep = false := by
    simp only [List.contains, List.elem_eq_mem, decide_eq_false_iff_not]
    intro hmem
    exact hw sep hmem rfl
  simp only [splitNChar, hcont, Bool.false_eq_true, if_false]

lemma runSplitter_stream (fs : List RelpFrame)
    (hv : ∀ f ∈ fs, validRelpFrame f = true) :
    runSplitter fs.length (encodeRelpStream fs) = fs.map relpTokenOf := by
  induction fs with
  | nil => simp [runSplitter, encodeRelpStream]
  | cons f fs ih =>
    have hvf : validRelpFrame f = true := hv f (by simp)
    have hstream : encodeRelpStream (f :: fs) =
        encodeRelpFrame f ++ encodeRelpStream fs := by
      simp [encodeRelpStream]
    rw [List.length_cons, hstream]
    simp only [runSplitter, relpSplit_encodeFrame f (encodeRelpStream fs) false hvf]
    rw [List.drop_left, ih (fun g hg => hv g (by simp [hg]))]
    simp

lemma decodeRelpToken_encode (f : RelpFrame) (hv : validRelpFrame f = true) :
    decodeRelpToken (relpTokenOf f) = ((f.txnr : Int), f.command, f.data) := by
  obtain ⟨hCne, hCws, hDh, hDl⟩ := validRelpFrame_parts f hv
  have hTsp : ∀ c ∈ natToDec f.txnr, c ≠ ' ' :=
    fun c hc => not_ws_ne_space c (natToDec_not_ws _ c hc).1
  have hCsp : ∀ c ∈ f.command, c ≠ ' ' :=
    fun c hc => not_ws_ne_space c (hCws c hc)
  have hLsp : ∀ c ∈ natToDec f.data.length, c ≠ ' ' :=
    fun c hc => not_ws_ne_space c (natToDec_not_ws _ c hc).1
  by_cases hDe : f.data.isEmpty
  · have hD : f.data = [] := List.isEmpty_iff.mp hDe
    have htok : relpTokenOf f =
        natToDec f.txnr ++ ' ' :: (f.command ++ ' ' :: natToDec f.data.length) := by
      simp [relpTokenOf, hDe]
    have hsplit4 : splitNChar ' ' 4 (relpTokenOf f) =
        [natToDec f.txnr, f.command, natToDec f.data.length] := by
      rw [htok, show (4 : Nat) = 2 + 2 from rfl, splitNChar_step ' ' 2 _ _ hTsp,
        show (2 + 1 : Nat) = 1 + 2 from rfl, splitNChar_step ' ' 1 _ _ hCsp,
        splitNChar_no_sep ' ' 0 _ hLsp]
    rw [decodeRelpToken, hsplit4]
    simp [hD, atoiOr0_natToDec]
  · have hD : f.data ≠ [] := by
      intro h
      rw [h] at hDe
      simp at hDe
    obtain ⟨d0, D'', hD0⟩ := List.exists_cons_of_ne_nil hD
    obtain ⟨D0, dl, hDdec⟩ : ∃ D0 dl, f.data = D0 ++ [dl] := by
      rcases List.eq_nil_or_concat f.data with h | ⟨D0, dl, h⟩
      · exact absurd h hD
      · exact ⟨D0, dl, by rw [h, List.concat_eq_append]⟩
    have htok : relpTokenOf f =
        natToDec f.txnr ++ ' ' :: (f.command ++ ' ' ::
          (natToDec f.data.length ++ ' ' :: f.data)) := by
      simp [relpTokenOf, hD]
    have hsplit4 : splitNChar ' ' 4 (relpTokenOf f) =
        [natToDec f.txnr, f.command, natToDec f.data.length, f.data] := by
      rw [htok, show (4 : Nat) = 2 + 2 from rfl, splitNChar_step ' ' 2 _ _ hTsp,
        show (2 + 1 : Nat) = 1 + 2 from rfl, splitNChar_step ' ' 1 _ _ hCsp,
        show (1 + 1 : Nat) = 0 + 2 from rfl, splitNChar_step ' ' 0 _ _ hLsp]
      rfl
    have htrimD : trimWS f.data = f.data := by
      rw [trimWS, hD0, trimLeftWS_cons_keep d0 _ (by
        rw [isWS_eq_splitSpaceOrLF]
        exact hDh d0 (by rw [hD0]; rfl)), ← hD0, hDdec,
        trimRightWS_concat_keep _ _ (by
          rw [isWS_eq_splitSpaceOrLF]
          exact hDl dl (by rw [hDdec]; simp))]
    have hlen0 : (f.data.length : Int) ≠ 0 := by
      have : 0 < f.data.length := List.length_pos.mpr hD
      omega
    rw [decodeRelpToken, hsplit4]
    simp [atoiOr0_natToDec, hlen0, htrimD]

/-- C4 (amended): on every valid RELP frame stream whose payloads do not
begin or end with a whitespace byte, the splitter is the inverse of the
framer: it yields exactly one token per frame (the frame minus its
trailing LF), and txnr, command and payload are recovered from the token
unchanged. Payloads with leading or trailing whitespace are trimmed by
the splitter, so for them the round-trip loses those bytes. -/
theorem relpSplit_inverse_of_framer (fs : List RelpFrame)
    (hv : ∀ f ∈ fs, validRelpFrame f = true) :
    runSplitter fs.length (encodeRelpStream fs) = fs.map relpTokenOf ∧
    ∀ f ∈ fs, decodeRelpToken (relpTokenOf f) = ((f.txnr : Int), f.command, f.data) :=
  ⟨runSplitter_stream fs hv, fun f hf => decodeRelpToken_encode f (hv f hf)⟩

/-- C4 counterexample to the claim as frozen: the wire-valid frame
`1 syslog 2 a\n\n` (payload "a\n", DATALEN 2) loses its trailing LF byte:
the splitter trims the payload edge whitespace, so the round-trip gives
back "a" instead of "a\n". -/
theorem relpSplit_framer_trailing_ws_lost :
    encodeRelpFrame ⟨1, "syslog".data, "a\n".data⟩ = "1 syslog 2 a\n\n".data ∧
    runSplitter 1 (encodeRelpStream [⟨1, "syslog".data, "a\n".data⟩]) =
      ["1 syslog 2 a".data] ∧
    decodeRelpToken "1 syslog 2 a".data = ((1 : Int), "syslog".data, "a".data) ∧
    "a".data ≠ "a\n".data := by
  refine ⟨by decide, by decide, by decide, by decide⟩

/-- Witness for relpSplit_inverse_of_framer at a concrete two-frame stream. -/
theorem relpSplit_inverse_of_framer_witness :
    runSplitter 2 (encodeRelpStream
      [⟨1, "open".data, "abc".data⟩, ⟨2, "syslog".data, "a b".data⟩]) =
      ["1 open 3 abc".data, "2 syslog 3 a b".data] ∧
    decodeRelpToken (relpTokenOf ⟨2, "syslog".data, "a b".data⟩) =
      ((2 : Int), "syslog".data, "a b".data) := by
  have h := relpSplit_inverse_of_framer
    [⟨1, "open".data, "abc".data⟩, ⟨2, "syslog".data, "a b".data⟩] (by decide)
  constructor
  · exact h.1.trans (by decide)
  · simpa using h.2 ⟨2, "syslog".data, "a b".data⟩ (by decide)

/-! ## The RELP connection handler loop (RelpHandler.HandleConnection) -/

/-- Connection-scoped values the handler stamps on raw messages. -/
structure ConnCtx where
  client : List Char
  localPort : Int
  path : List Char
  confID : Nat
  dontParseSD : Bool
  encoding : List Char
  format : List Char
  connID : Nat
deriving DecidableEq, Repr

/-- model.RawTcpMessage as the handler fills it before enqueueing. -/
structure RawTcpMessage where
  message : List Char
  size : Nat
  txnr : Int
  client : List Char
  localPort : Int
  unixSocketPath : List Char
  confID : Nat
  dontParseSD : Bool
  encoding : List Char
  format : List Char
  connID : Nat
deriving DecidableEq, Repr

/-- Observable state of one HandleConnection loop: the RELP open flag,
the last seen txnr, the per-client protocol error counter, the bytes
written to the socket, the forwarder calls, the buffers rented from the
pool and the raw messages enqueued to the ring. -/
structure HandlerState where
  relpIsOpen : Bool
  previous : Int
  protocolErrors : Nat
  written : List (List Char)
  receivedCalls : List (Nat × Int)
  succForwards : List (Nat × Int)
  rented : Nat
  enqueued : List RawTcpMessage
  closedConn : Bool
  incomingMsgs : Nat
deriving DecidableEq, Repr

/-- State at the top of HandleConnection: not open, previous = -1. -/
def initHandlerState : HandlerState :=
  { relpIsOpen := false, previous := -1, protocolErrors := 0, written := [],
    receivedCalls := [], succForwards := [], rented := 0, enqueued := [],
    closedConn := false, incomingMsgs := 0 }

/-- One iteration of the HandleConnection scanner loop (relp.go:914-991)
on a scanner token: split into at most 4 space-separated parts, check the
txnr strictly increased, extract the payload, then dispatch on the
command. The boolean is false when the handler returns (connection
teardown). -/
def handleRelpLine (ctx : ConnCtx) (st : HandlerState) (line : List Char) :
    HandlerState × Bool :=
  let splits := splitNChar ' ' 4 line
  let txnr := atoiOr0 (splits.getD 0 [])
  if txnr ≤ st.previous then
    ({ st with protocolErrors := st.protocolErrors + 1 }, false)
  else
    let st1 := { st with previous := txnr }
    let command := splits.getD 1 []
    let datalen := atoiOr0 (splits.getD 2 [])
    let dataRes : Option (List Char) :=
      if datalen ≠ 0 then
        if splits.length = 4 then some (trimWS (splits.getD 3 [])) else none
      else some []
    match dataRes with
    | none => ({ st1 with protocolErrors := st1.protocolErrors + 1 }, false)
    | some data =>
      if command = "open".data then
        if st1.relpIsOpen then
          ({ st1 with protocolErrors := st1.protocolErrors + 1 }, false)
        else
          let answer := intToDec txnr ++ " rsp ".data ++
            natToDec (data.length + 7) ++ " 200 OK\n".data ++ data ++ "\n".data
          ({ st1 with written := st1.written ++ [answer], relpIsOpen := true }, true)
      else if command = "close".data then
        if !st1.relpIsOpen then
          ({ st1 with protocolErrors := st1.protocolErrors + 1 }, false)
        else
          let answer := intToDec txnr ++ " rsp 0\n0 serverclose 0\n".data
          let st2 := { st1 with written := st1.written ++ [answer] }
          ({ st2 with closedConn := true, relpIsOpen := false }, true)
      else if command = "syslog".data then
        if !st1.relpIsOpen then
          ({ st1 with protocolErrors := st1.protocolErrors + 1 }, false)
        else
          let st2 := { st1 with receivedCalls :=
            st1.receivedCalls ++ [(ctx.connID, txnr)] }
          if data.isEmpty then
            ({ st2 with succForwards := st2.succForwards ++ [(ctx.connID, txnr)] }, true)
          else
            let rawmsg : RawTcpMessage :=
              { message := data, size := data.length, txnr := txnr,
                client := ctx.client, localPort := ctx.localPort,
                unixSocketPath := ctx.path, confID := ctx.confID,
                dontParseSD := ctx.dontParseSD, encoding := ctx.encoding,
                format := ctx.format, connID := ctx.connID }
            let st3 := { st2 with rented := st2.rented + 1 }
            let st4 := { st3 with incomingMsgs := st3.incomingMsgs + 1 }
            ({ st4 with enqueued := st4.enqueued ++ [rawmsg] }, true)
      else ({ st1 with protocolErrors := st1.protocolErrors + 1 }, false)

/-- C2: a frame whose parsed txnr does not exceed the previously seen
txnr (initially -1) makes the handler increment the protocol-error
counter by exactly one and return (tearing the connection down), leaving
every other piece of state untouched: no response is written, nothing is
rented or enqueued, no forwarder call is made, no command is processed. -/
theorem relp_txnr_regression_teardown :
    initHandlerState.previous = -1 ∧
    ∀ (ctx : ConnCtx) (st : HandlerState) (line : List Char),
      atoiOr0 ((splitNChar ' ' 4 line).getD 0 []) ≤ st.previous →
      handleRelpLine ctx st line =
        ({ st with protocolErrors := st.protocolErrors + 1 }, false) := by
  refine ⟨rfl, ?_⟩
  intro ctx st line h
  simp only [handleRelpLine]
  rw [if_pos h]

/-- Witness for relp_txnr_regression_teardown: txnr 4 after previous 5. -/
theorem relp_txnr_regression_teardown_witness :
    handleRelpLine
      ⟨"10.0.0.1".data, 2514, [], 7, false, "utf8".data, "rfc5424".data, 1⟩
      { initHandlerState with relpIsOpen := true, previous := 5 }
      "4 syslog 4 test".data =
      ({ initHandlerState with relpIsOpen := true, previous := 5, protocolErrors := 1 }, false) :=
  relp_txnr_regression_teardown.2
    ⟨"10.0.0.1".data, 2514, [], 7, false, "utf8".data, "rfc5424".data, 1⟩
    { initHandlerState with relpIsOpen := true, previous := 5 }
    "4 syslog 4 test".data (by decide)

/-- C5: a syslog command on an open connection with an empty payload
forwards an immediate success for that txnr without renting a pool
buffer and without enqueueing to the raw ring (Received is also called,
as in the source); with a non-empty payload it calls Received, rents a
buffer, copies the payload, stamps the connection metadata and enqueues
the raw message. -/
theorem relp_syslog_empty_vs_nonempty :
    ∀ (ctx : ConnCtx) (st : HandlerState) (line : List Char) (data : List Char),
      st.relpIsOpen = true →
      st.previous < atoiOr0 ((splitNChar ' ' 4 line).getD 0 []) →
      (splitNChar ' ' 4 line).getD 1 [] = "syslog".data →
      (if atoiOr0 ((splitNChar ' ' 4 line).getD 2 []) ≠ 0 then
        (if (splitNChar ' ' 4 line).length = 4 then
          some (trimWS ((splitNChar ' ' 4 line).getD 3 [])) else none)
       else some (([] : List Char))) = some data →
      ((data = [] →
        handleRelpLine ctx st line =
          ({ st with previous := atoiOr0 ((splitNChar ' ' 4 line).getD 0 []), receivedCalls := st.receivedCalls ++ [(ctx.connID, atoiOr0 ((splitNChar ' ' 4 line).getD 0 []))], succForwards := st.succForwards ++ [(ctx.connID, atoiOr0 ((splitNChar ' ' 4 line).getD 0 []))] }, true)) ∧
      (data ≠ [] →
        handleRelpLine ctx st line =
          ({ st with previous := atoiOr0 ((splitNChar ' ' 4 line).getD 0 []), receivedCalls := st.receivedCalls ++ [(ctx.connID, atoiOr0 ((splitNChar ' ' 4 line).getD 0 []))], rented := st.rented + 1, incomingMsgs := st.incomingMsgs + 1, enqueued := st.enqueued ++ [{ message := data, size := data.length, txnr := atoiOr0 ((splitNChar ' ' 4 line).getD 0 []), client := ctx.client, localPort := ctx.localPort, unixSocketPath := ctx.path, confID := ctx.confID, dontParseSD := ctx.dontParseSD, encoding := ctx.encoding, format := ctx.format, connID := ctx.connID }] }, true))) := by
  intro ctx st line data hopen hprev hcmd hdata
  have hno : ¬((splitNChar ' ' 4 line).getD 1 [] = "open".data) := by
    rw [hcmd]; decide
  have hnc : ¬((splitNChar ' ' 4 line).getD 1 [] = "close".data) := by
    rw [hcmd]; decide
  obtain ⟨o, pv, pe, w, rc, sf, r, e, cc, im⟩ := st
  simp only at hopen hprev
  subst hopen
  have hnotle : ¬(atoiOr0 ((splitNChar ' ' 4 line).getD 0 []) ≤ pv) :=
    not_le.mpr hprev
  constructor
  · intro hd
    subst hd
    simp only [handleRelpLine]
    rw [if_neg hnotle, hdata]
    simp only []
    rw [if_neg hno, if_neg hnc, if_pos hcmd, if_neg (by decide : ¬((!true) = true)),
      if_pos (by decide : (List.isEmpty [] = true))]
  · intro hd
    have hde : data.isEmpty = false := by
      rcases data with _ | ⟨x, xs⟩
      · exact absurd rfl hd
      · rfl
    simp only [handleRelpLine]
    rw [if_neg hnotle, hdata]
    simp only []
    rw [if_neg hno, if_neg hnc, if_pos hcmd, if_neg (by decide : ¬((!true) = true)),
      if_neg (by rw [hde]; decide : ¬(data.isEmpty = true))]

/-- Witness for relp_syslog_empty_vs_nonempty: an empty payload
(`2 syslog 0`) and a non-empty payload (`3 syslog 4 test`) on an open
connection. -/
theorem relp_syslog_empty_vs_nonempty_witness :
    handleRelpLine ⟨"c".data, 514, [], 3, false, [], [], 9⟩
      { initHandlerState with relpIsOpen := true, previous := 1 }
      "2 syslog 0".data =
      ({ initHandlerState with relpIsOpen := true, previous := 2, receivedCalls := [(9, 2)], succForwards := [(9, 2)] }, true) ∧
    handleRelpLine ⟨"c".data, 514, [], 3, false, [], [], 9⟩
      { initHandlerState with relpIsOpen := true, previous := 2 }
      "3 syslog 4 test".data =
      ({ initHandlerState with relpIsOpen := true, previous := 3, receivedCalls := [(9, 3)], rented := 1, incomingMsgs := 1, enqueued := [{ message := "test".data, size := 4, txnr := 3, client := "c".data, localPort := 514, unixSocketPath := [], confID := 3, dontParseSD := false, encoding := [], format := [], connID := 9 }] }, true) := by
  constructor
  · exact ((relp_syslog_empty_vs_nonempty ⟨"c".data, 514, [], 3, false, [], [], 9⟩
      { initHandlerState with relpIsOpen := true, previous := 1 }
      "2 syslog 0".data [] (by decide) (by decide) (by decide) (by decide)).1 rfl).trans
      (by decide)
  · exact ((relp_syslog_empty_vs_nonempty ⟨"c".data, 514, [], 3, false, [], [], 9⟩
      { initHandlerState with relpIsOpen := true, previous := 2 }
      "3 syslog 4 test".data "test".data (by decide) (by decide) (by decide)
      (by decide)).2 (by decide)).trans (by decide)

/-! ## Parser workers (RelpServiceImpl.Parse) and the store Stasher -/

/-- Outcome of the parser lookup and parse attempt on one raw message
(the parsers themselves are external collaborators). -/
inductive ParserOutcome where
  | unknownParser : ParserOutcome
  | parseError : ParserOutcome
  | emptyMessage : ParserOutcome
  | success : ParserOutcome
deriving DecidableEq, Repr

/-- Observable effects of one iteration of the Parse worker loop. -/
structure ParseIterResult where
  poolPuts : Nat
  parsingErrors : Nat
  queuedParsed : Nat
  succForwards : List (Nat × Int)
  failForwards : List (Nat × Int)
  workerReturned : Bool
  stoppedService : Bool
deriving DecidableEq, Repr

/-- One iteration of RelpServiceImpl.Parse (relp.go:553-618) on a raw
message taken from the ring: unknown parser puts the buffer back and the
worker exits; a parse error counts, puts the buffer back and continues;
an empty parsed message puts the buffer back and continues; on success
the buffer is put back and the message either goes to the parsed queue
(direct mode) or to the Stasher, whose (fatal, nonfatal) result decides
between ForwardSucc, ForwardFail with service stop, or ForwardFail. -/
def parseIteration (direct : Bool) (raw : RawTcpMessage) (outcome : ParserOutcome)
    (stashRes : Option (List Char) × Option (List Char)) : ParseIterResult :=
  match outcome with
  | .unknownParser =>
    { poolPuts := 1, parsingErrors := 0, queuedParsed := 0, succForwards := [],
      failForwards := [], workerReturned := true, stoppedService := false }
  | .parseError =>
    { poolPuts := 1, parsingErrors := 1, queuedParsed := 0, succForwards := [],
      failForwards := [], workerReturned := false, stoppedService := false }
  | .emptyMessage =>
    { poolPuts := 1, parsingErrors := 0, queuedParsed := 0, succForwards := [],
      failForwards := [], workerReturned := false, stoppedService := false }
  | .success =>
    if direct then
      { poolPuts := 1, parsingErrors := 0, queuedParsed := 1, succForwards := [],
        failForwards := [], workerReturned := false, stoppedService := false }
    else
      match stashRes with
      | (none, none) =>
        { poolPuts := 1, parsingErrors := 0, queuedParsed := 0,
          succForwards := [(raw.connID, raw.txnr)], failForwards := [],
          workerReturned := false, stoppedService := false }
      | (some _, _) =>
        { poolPuts := 1, parsingErrors := 0, queuedParsed := 0, succForwards := [],
          failForwards := [(raw.connID, raw.txnr)], workerReturned := true,
          stoppedService := true }
      | (none, some _) =>
        { poolPuts := 1, parsingErrors := 0, queuedParsed := 0, succForwards := [],
          failForwards := [(raw.connID, raw.txnr)], workerReturned := false,
          stoppedService := false }

/-- StorePlugin.Stash: put the message on the internal queue and return
(nil, nil), unconditionally. -/
def storePluginStash (q : List α) (m : α) :
    List α × (Option (List Char) × Option (List Char)) :=
  (q ++ [m], (none, none))

/-- C6: every raw buffer is returned to the pool exactly once. Each
handler iteration rents exactly as many buffers as raw messages it
enqueues (one on the non-empty syslog path, zero elsewhere), and every
path of a parser worker iteration (unknown parser, parse error, empty
message, success in direct mode, success in store mode with any Stash
result) puts the buffer back exactly once - never zero times, never
twice. -/
theorem relp_buffer_rent_return_balance :
    (∀ (direct : Bool) (raw : RawTcpMessage) (outcome : ParserOutcome)
      (stashRes : Option (List Char) × Option (List Char)),
      (parseIteration direct raw outcome stashRes).poolPuts = 1) ∧
    (∀ (ctx : ConnCtx) (st : HandlerState) (line : List Char),
      (handleRelpLine ctx st line).1.rented + st.enqueued.length =
        st.rented + (handleRelpLine ctx st line).1.enqueued.length) := by
  constructor
  · intro direct raw outcome stashRes
    rcases outcome with _ | _ | _ | _ <;>
      rcases stashRes with ⟨_ | f, _ | nf⟩ <;>
      rcases direct with _ | _ <;>
      simp [parseIteration]
  · intro ctx st line
    simp only [handleRelpLine]
    repeat' split
    all_goals simp
    omega

/-- C10: StorePlugin.Stash returns (nil, nil) for every message; through
this Stasher a successfully parsed message in RELP store mode always
takes the ForwardSucc branch of the Parse worker - the fatal and
non-fatal failure branches are unreachable and the service is never
stopped by it. -/
theorem storeStash_always_succeeds :
    (∀ (q : List RawTcpMessage) (m : RawTcpMessage),
      (storePluginStash q m).2 = (none, none) ∧
      (storePluginStash q m).1 = q ++ [m]) ∧
    (∀ (q : List RawTcpMessage) (m : RawTcpMessage) (raw : RawTcpMessage),
      parseIteration false raw ParserOutcome.success (storePluginStash q m).2 =
        { poolPuts := 1, parsingErrors := 0, queuedParsed := 0,
          succForwards := [(raw.connID, raw.txnr)], failForwards := [],
          workerReturned := false, stoppedService := false }) := by
  constructor
  · intro q m
    exact ⟨rfl, rfl⟩
  · intro q m raw
    rfl

/-! ## The acknowledgement forwarder (ackForwarder, relp.go:49-173) -/

/-- Modelled from the spec: utils/queue.IntQueue (not under src/) - a
FIFO of txnrs that can be disposed; a disposed queue accepts nothing and
pending waits on it return false. -/
structure IntQueue where
  items : List Int
  disposed : Bool
deriving DecidableEq, Repr

def IntQueue.new : IntQueue := { items := [], disposed := false }

/-- Modelled from the spec: Dispose empties the queue and marks it so
that pending `wait` calls return false. -/
def IntQueue.dispose (_ : IntQueue) : IntQueue := { items := [], disposed := true }

/-- Modelled from the spec: `wait(conn_id) -> bool`: block until either
queue is non-empty or the connection is disposed; false means disposed.
`none` stands for blocking (neither condition holds yet). -/
def waitOne (q1 q2 : IntQueue) : Option Bool :=
  if q1.disposed || q2.disposed then some false
  else if !q1.items.isEmpty || !q2.items.isEmpty then some true
  else none

/-- hashmap.GetUintKey: `some v` means the key is present holding `v`,
where `v = none` models a stored nil pointer. -/
def alistGet (m : List (Nat × Option β)) (k : Nat) : Option (Option β) :=
  (m.find? (fun kv => kv.1 == k)).map Prod.snd

/-- hashmap.Set: replace the value when the key exists, append otherwise. -/
def alistSet (m : List (Nat × Option β)) (k : Nat) (v : Option β) :
    List (Nat × Option β) :=
  if (m.find? (fun kv => kv.1 == k)).isSome then
    m.map (fun kv => if kv.1 == k then (k, v) else kv)
  else m ++ [(k, v)]

/-- hashmap.Del. -/
def alistDel (m : List (Nat × Option β)) (k : Nat) : List (Nat × Option β) :=
  m.filter (fun kv => kv.1 != k)

/-- The three concurrent maps of ackForwarder, keyed by connection id;
the inner commit map holds txnr-to-flag entries. -/
structure AckForwarder where
  succ : List (Nat × Option IntQueue)
  fail : List (Nat × Option IntQueue)
  comm : List (Nat × Option (List (Int × Bool)))
  next : Nat
deriving DecidableEq, Repr

def emptyAckForwarder : AckForwarder :=
  { succ := [], fail := [], comm := [], next := 0 }

/-- ackForwarder.AddConn: allocate the next connection id and create the
two queues and the commit map. -/
def AckForwarder.addConn (f : AckForwarder) : Nat × AckForwarder :=
  let connID := f.next + 1
  (connID,
    { succ := alistSet f.succ connID (some IntQueue.new),
      fail := alistSet f.fail connID (some IntQueue.new),
      comm := alistSet f.comm connID (some []),
      next := connID })

/-- ackForwarder.RemoveConn, translated line by line (relp.go:115-130):
dispose and remove the succ queue, dispose and remove the fail queue,
then - in the comm branch - set a nil entry in the fail map (sic, the
source writes f.fail, not f.comm) and delete the comm entry. -/
def AckForwarder.removeConn (f : AckForwarder) (connID : Nat) : AckForwarder :=
  let f1 :=
    match alistGet f.succ connID with
    | some (some _) => { f with succ := alistDel (alistSet f.succ connID none) connID }
    | _ => f
  let f2 :=
    match alistGet f1.fail connID with
    | some (some _) => { f1 with fail := alistDel (alistSet f1.fail connID none) connID }
    | _ => f1
  match alistGet f2.comm connID with
  | some (some _) =>
    { f2 with fail := alistSet f2.fail connID none, comm := alistDel f2.comm connID }
  | _ => f2

/-- ackForwarder.Wait (relp.go:163-173): missing or nil queue pointers
mean false; otherwise wait on the two queues. -/
def AckForwarder.wait (f : AckForwarder) (connID : Nat) : Option Bool :=
  match alistGet f.succ connID with
  | some (some qs) =>
    match alistGet f.fail connID with
    | some (some qf) => waitOne qs qf
    | _ => some false
  | _ => some false

/-- C7: evaluating RemoveConn on the first connection of a fresh
forwarder. The succ and comm entries are gone and every pending or
subsequent wait returns false, but the fail map retains a nil-valued
entry keyed by the connection id: line 127 of relp.go sets f.fail
instead of f.comm inside the comm branch, so the claim's "no map retains
an entry keyed by conn_id" is violated by the code. -/
theorem removeConn_leaves_nil_fail_entry :
    (((emptyAckForwarder.addConn).2.removeConn (emptyAckForwarder.addConn).1).fail =
      [(1, none)]) ∧
    alistGet ((emptyAckForwarder.addConn).2.removeConn (emptyAckForwarder.addConn).1).fail
      (emptyAckForwarder.addConn).1 = some none ∧
    alistGet ((emptyAckForwarder.addConn).2.removeConn (emptyAckForwarder.addConn).1).succ
      (emptyAckForwarder.addConn).1 = none ∧
    alistGet ((emptyAckForwarder.addConn).2.removeConn (emptyAckForwarder.addConn).1).comm
      (emptyAckForwarder.addConn).1 = none ∧
    ((emptyAckForwarder.addConn).2.removeConn (emptyAckForwarder.addConn).1).wait
      (emptyAckForwarder.addConn).1 = some false ∧
    (∀ q1 q2 : IntQueue, waitOne q1.dispose q2.dispose = some false) := by
  refine ⟨by decide, by decide, by decide, by decide, by decide, ?_⟩
  intro q1 q2
  rfl

/-! ## The response cooker ordering (handleResponses + NextToCommit) -/

/-- The per-connection commit map comm[connID]: txnr to in-flight flag. -/
abbrev CommMap := List (Int × Bool)

/-- hashmap.Set on the inner commit map. -/
def commSet (h : CommMap) (k : Int) (v : Bool) : CommMap :=
  if (h.find? (fun kv => kv.1 == k)).isSome then
    h.map (fun kv => if kv.1 == k then (k, v) else kv)
  else h ++ [(k, v)]

/-- hashmap.Del on the inner commit map. -/
def commDel (h : CommMap) (k : Int) : CommMap :=
  h.filter (fun kv => kv.1 != k)

/-- ackForwarder.Received: mark the txnr in-flight. -/
def commReceived (h : CommMap) (txnr : Int) : CommMap :=
  commSet h txnr true

/-- ackForwarder.Committed: set the flag to false, then delete the key
(the spec reads this as a delete). -/
def commCommitted (h : CommMap) (txnr : Int) : CommMap :=
  commDel (commSet h txnr false) txnr

/-- The loop body of ackForwarder.NextToCommit (relp.go:74-93): the
minimum key among entries whose flag is true, with -1 as the sentinel. -/
def ntcFold (minimum : Int) (kv : Int × Bool) : Int :=
  if kv.2 then
    if minimum = -1 then kv.1
    else if kv.1 < minimum then kv.1 else minimum
  else minimum

/-- ackForwarder.NextToCommit: -1 on an empty map, otherwise the fold
over all entries. -/
def nextToCommit (h : CommMap) : Int :=
  if h.length = 0 then -1 else h.foldl ntcFold (-1)

/-- A state of one connection as seen by the reader goroutine
(HandleConnection) and its response cooker (handleResponses): the commit
map, the last txnr accepted by the reader, the two forwarder queues, the
cooker-local success/failure sets, and the txnrs of the responses
written so far, in emission order. -/
structure CookerState where
  comm : CommMap
  prevTxnr : Int
  succQ : List Int
  failQ : List Int
  successes : List Int
  failures : List Int
  emitted : List Int
deriving DecidableEq, Repr

def cookerInit : CookerState :=
  { comm := [], prevTxnr := -1, succQ := [], failQ := [], successes := [],
    failures := [], emitted := [] }

/-- The events of one RELP connection, interleaved in any order: the
reader accepts a frame with a strictly increasing txnr and calls
Received; parse/broker completions call ForwardSucc/ForwardFail in any
order and for any txnr; the cooker drains one queue entry into its local
set (GetFail is only consulted when GetSucc yields nothing); and the
Cooking loop emits a response for NextToCommit when that txnr is in one
of the local sets, then calls Committed. -/
inductive CookerStep : CookerState → CookerState → Prop where
  | receive (s : CookerState) (t : Int) (h : s.prevTxnr < t) :
      CookerStep s { s with comm := commReceived s.comm t, prevTxnr := t }
  | forwardSucc (s : CookerState) (t : Int) :
      CookerStep s { s with succQ := s.succQ ++ [t] }
  | forwardFail (s : CookerState) (t : Int) :
      CookerStep s { s with failQ := s.failQ ++ [t] }
  | drainSucc (s : CookerState) (t : Int) (rest : List Int)
      (h : s.succQ = t :: rest) :
      CookerStep s { s with succQ := rest, successes := t :: s.successes }
  | drainFail (s : CookerState) (t : Int) (rest : List Int)
      (hs : s.succQ = []) (h : s.failQ = t :: rest) :
      CookerStep s { s with failQ := rest, failures := t :: s.failures }
  | emitSucc (s : CookerState) (t : Int) (hn : nextToCommit s.comm = t)
      (hne : t ≠ -1) (hmem : t ∈ s.successes) :
      CookerStep s
        { s with
          emitted := s.emitted ++ [t],
          successes := s.successes.filter (fun x => x != t),
          comm := commCommitted s.comm t }
  | emitFail (s : CookerState) (t : Int) (hn : nextToCommit s.comm = t)
      (hne : t ≠ -1) (hmem : t ∈ s.failures) :
      CookerStep s
        { s with
          emitted := s.emitted ++ [t],
          failures := s.failures.filter (fun x => x != t),
          comm := commCommitted s.comm t }

/-- Reachability from the fresh connection state. -/
def CookerReachable (s : CookerState) : Prop :=
  Relation.ReflTransGen CookerStep cookerInit s

lemma ntcFoldl_spec (l : CommMap) :
    ∀ acc : Int, 0 ≤ acc → (∀ kv ∈ l, kv.2 = true) → (∀ kv ∈ l, 0 ≤ kv.1) →
      (List.foldl ntcFold acc l = acc ∨
        List.foldl ntcFold acc l ∈ l.map Prod.fst) ∧
      List.foldl ntcFold acc l ≤ acc ∧
      ∀ k ∈ l.map Prod.fst, List.foldl ntcFold acc l ≤ k := by
  induction l with
  | nil =>
    intro acc _ _ _
    exact ⟨Or.inl rfl, le_refl _, by simp⟩
  | cons kv tl ih =>
    intro acc hacc htrue hpos
    obtain ⟨k, b⟩ := kv
    have hb : b = true := htrue (k, b) (by simp)
    subst hb
    have hk : 0 ≤ k := hpos (k, true) (by simp)
    have hstep : ntcFold acc (k, true) = if k < acc then k else acc := by
      simp only [ntcFold, if_true]
      rw [if_neg (by omega : ¬acc = -1)]
    have htrue2 : ∀ kv ∈ tl, kv.2 = true := fun kv hkv => htrue kv (by simp [hkv])
    have hpos2 : ∀ kv ∈ tl, 0 ≤ kv.1 := fun kv hkv => hpos kv (by simp [hkv])
    have hacc2 : (0 : Int) ≤ if k < acc then k else acc := by split <;> omega
    obtain ⟨hor, hle2, hall⟩ := ih (if k < acc then k else acc) hacc2 htrue2 hpos2
    rw [List.foldl_cons, hstep]
    refine ⟨?_, ?_, ?_⟩
    · rcases hor with hor | hor
      · rw [hor]
        split
        · exact Or.inr (by simp)
        · exact Or.inl rfl
      · exact Or.inr (by simp [hor])
    · have : (if k < acc then k else acc) ≤ acc := by split <;> omega
      omega
    · intro k2 hk2
      rw [List.map_cons] at hk2
      rcases List.mem_cons.mp hk2 with hk2 | hk2
      · have h1 : (if k < acc then k else acc) ≤ k := by split <;> omega
        subst hk2
        omega
      · exact hall k2 hk2

lemma nextToCommit_spec (h : CommMap) (hne : h ≠ [])
    (htrue : ∀ kv ∈ h, kv.2 = true) (hpos : ∀ kv ∈ h, 0 ≤ kv.1) :
    nextToCommit h ∈ h.map Prod.fst ∧ ∀ k ∈ h.map Prod.fst, nextToCommit h ≤ k := by
  rw [nextToCommit, if_neg (by simpa [List.length_eq_zero] using hne)]
  obtain ⟨kv0, tl, rfl⟩ := List.exists_cons_of_ne_nil hne
  obtain ⟨k0, b0⟩ := kv0
  have hb0 : b0 = true := htrue (k0, b0) (by simp)
  subst hb0
  have hk0 : 0 ≤ k0 := hpos (k0, true) (by simp)
  have hstep : ntcFold (-1) (k0, true) = k0 := by
    simp [ntcFold]
  have htrue2 : ∀ kv ∈ tl, kv.2 = true := fun kv hkv => htrue kv (by simp [hkv])
  have hpos2 : ∀ kv ∈ tl, 0 ≤ kv.1 := fun kv hkv => hpos kv (by simp [hkv])
  obtain ⟨hor, hle2, hall⟩ := ntcFoldl_spec tl k0 hk0 htrue2 hpos2
  rw [List.foldl_cons, hstep]
  constructor
  · rcases hor with hor | hor
    · rw [hor]; simp
    · simp [hor]
  · intro k2 hk2
    rw [List.map_cons] at hk2
    rcases List.mem_cons.mp hk2 with hk2 | hk2
    · subst hk2
      omega
    · exact hall k2 hk2

lemma mem_commSet_of_ne (h : CommMap) (t : Int) (v : Bool) (x : Int × Bool)
    (hx : x ∈ commSet h t v) (hne : x.1 ≠ t) : x ∈ h := by
  rw [commSet] at hx
  split at hx
  · obtain ⟨y, hy, hxy⟩ := List.mem_map.mp hx
    by_cases hyt : y.1 == t
    · rw [if_pos hyt] at hxy
      exact absurd (by rw [← hxy]) hne
    · rw [if_neg hyt] at hxy
      rw [← hxy]
      exact hy
  · rcases List.mem_append.mp hx with hx | hx
    · exact hx
    · rw [List.mem_singleton] at hx
      subst hx
      exact absurd rfl hne

lemma commSet_keys_of_mem (h : CommMap) (t : Int) (v : Bool)
    (hmem : t ∈ h.map Prod.fst) :
    (commSet h t v).map Prod.fst = h.map Prod.fst := by
  have hfind : (h.find? (fun kv => kv.1 == t)).isSome := by
    rw [List.find?_isSome]
    obtain ⟨kv, hkv, hfst⟩ := List.mem_map.mp hmem
    exact ⟨kv, hkv, by simp [hfst]⟩
  rw [commSet, if_pos hfind, List.map_map]
  apply List.map_congr_left
  intro kv _
  by_cases hkt : kv.1 == t
  · simp only [Function.comp_apply, if_pos hkt]
    have : kv.1 = t := by simpa using hkt
    simp [this]
  · have hne2 : ¬kv.1 = t := by simpa using hkt
    simp [Function.comp_apply, hne2]

lemma commSet_not_mem (h : CommMap) (t : Int) (v : Bool)
    (hnot : ∀ kv ∈ h, kv.1 ≠ t) : commSet h t v = h ++ [(t, v)] := by
  rw [commSet, if_neg]
  intro hsome
  rw [List.find?_isSome] at hsome
  obtain ⟨kv, hkv, hbeq⟩ := hsome
  exact hnot kv hkv (by simpa using hbeq)

lemma mem_commCommitted (h : CommMap) (t : Int) (x : Int × Bool)
    (hx : x ∈ commCommitted h t) : x ∈ h ∧ x.1 ≠ t := by
  rw [commCommitted, commDel] at hx
  obtain ⟨hx1, hx2⟩ := List.mem_filter.mp hx
  have hne : x.1 ≠ t := by simpa using hx2
  exact ⟨mem_commSet_of_ne h t false x hx1 hne, hne⟩

lemma commCommitted_keys_sublist (h : CommMap) (t : Int)
    (hmem : t ∈ h.map Prod.fst) :
    List.Sublist ((commCommitted h t).map Prod.fst) (h.map Prod.fst) := by
  rw [commCommitted, commDel]
  have h1 : List.Sublist
      ((commSet h t false).filter (fun kv => kv.1 != t)) (commSet h t false) :=
    List.filter_sublist _
  have h2 := h1.map Prod.fst
  rwa [commSet_keys_of_mem h t false hmem] at h2

/-- The connection invariant maintained by every event: emitted txnrs
are strictly increasing, every in-flight txnr exceeds every emitted one,
in-flight txnrs never exceed the last accepted txnr, commit-map keys are
distinct nonnegative entries flagged true. -/
def CookerInv (s : CookerState) : Prop :=
  List.Pairwise (fun a b : Int => a < b) s.emitted ∧
  (∀ e ∈ s.emitted, ∀ kv ∈ s.comm, e < kv.1) ∧
  (∀ kv ∈ s.comm, kv.1 ≤ s.prevTxnr) ∧
  (∀ e ∈ s.emitted, e ≤ s.prevTxnr) ∧
  (s.comm.map Prod.fst).Nodup ∧
  (∀ kv ∈ s.comm, kv.2 = true) ∧
  (∀ kv ∈ s.comm, 0 ≤ kv.1) ∧
  -1 ≤ s.prevTxnr

lemma cookerStep_inv {s s' : CookerState} (hstep : CookerStep s s')
    (hinv : CookerInv s) : CookerInv s' := by
  obtain ⟨hpw, hlt, hle, hele, hnd, htrue, hpos, hprev⟩ := hinv
  cases hstep with
  | receive t ht =>
    simp only [CookerInv]
    have hnotmem : ∀ kv ∈ s.comm, kv.1 ≠ t := by
      intro kv hkv
      have := hle kv hkv
      omega
    have hset : commReceived s.comm t = s.comm ++ [(t, true)] :=
      commSet_not_mem s.comm t true hnotmem
    refine ⟨hpw, ?_, ?_, ?_, ?_, ?_, ?_, by omega⟩
    · intro e he kv hkv
      rw [hset] at hkv
      rcases List.mem_append.mp hkv with hkv | hkv
      · exact hlt e he kv hkv
      · rw [List.mem_singleton] at hkv
        subst hkv
        have := hele e he
        omega
    · intro kv hkv
      rw [hset] at hkv
      rcases List.mem_append.mp hkv with hkv | hkv
      · have := hle kv hkv
        omega
      · rw [List.mem_singleton] at hkv
        subst hkv
        exact le_refl t
    · intro e he
      have := hele e he
      omega
    · rw [hset, List.map_append, List.nodup_append]
      refine ⟨hnd, by simp, ?_⟩
      intro k hk hk2
      simp at hk2
      obtain ⟨kv, hkv, hfst⟩ := List.mem_map.mp hk
      exact hnotmem kv hkv (by rw [hfst, hk2])
    · intro kv hkv
      rw [hset] at hkv
      rcases List.mem_append.mp hkv with hkv | hkv
      · exact htrue kv hkv
      · rw [List.mem_singleton] at hkv
        subst hkv
        rfl
    · intro kv hkv
      rw [hset] at hkv
      rcases List.mem_append.mp hkv with hkv | hkv
      · exact hpos kv hkv
      · rw [List.mem_singleton] at hkv
        subst hkv
        simp only
        omega
  | forwardSucc t =>
    simp only [CookerInv]
    exact ⟨hpw, hlt, hle, hele, hnd, htrue, hpos, hprev⟩
  | forwardFail t =>
    simp only [CookerInv]
    exact ⟨hpw, hlt, hle, hele, hnd, htrue, hpos, hprev⟩
  | drainSucc t rest h =>
    simp only [CookerInv]
    exact ⟨hpw, hlt, hle, hele, hnd, htrue, hpos, hprev⟩
  | drainFail t rest hs h =>
    simp only [CookerInv]
    exact ⟨hpw, hlt, hle, hele, hnd, htrue, hpos, hprev⟩
  | emitSucc t hn hne hmem =>
    simp only [CookerInv]
    have hcne : s.comm ≠ [] := by
      intro h0
      rw [h0, nextToCommit] at hn
      simp at hn
      exact hne hn.symm
    obtain ⟨htm, htmin⟩ := nextToCommit_spec s.comm hcne htrue hpos
    rw [hn] at htm htmin
    refine ⟨?_, ?_, ?_, ?_, ?_, ?_, ?_, hprev⟩
    · rw [List.pairwise_append]
      refine ⟨hpw, by simp, ?_⟩
      intro a ha b hb
      rw [List.mem_singleton] at hb
      subst hb
      obtain ⟨kv, hkv, hfst⟩ := List.mem_map.mp htm
      have := hlt a ha kv hkv
      omega
    · intro e he kv hkv
      obtain ⟨hkvmem, hkvne⟩ := mem_commCommitted s.comm t kv hkv
      rcases List.mem_append.mp he with he | he
      · exact hlt e he kv hkvmem
      · rw [List.mem_singleton] at he
        subst he
        have := htmin kv.1 (List.mem_map.mpr ⟨kv, hkvmem, rfl⟩)
        omega
    · intro kv hkv
      exact hle kv (mem_commCommitted s.comm t kv hkv).1
    · intro e he
      rcases List.mem_append.mp he with he | he
      · exact hele e he
      · rw [List.mem_singleton] at he
        subst he
        obtain ⟨kv, hkv, hfst⟩ := List.mem_map.mp htm
        have := hle kv hkv
        omega
    · exact hnd.sublist (commCommitted_keys_sublist s.comm t htm)
    · intro kv hkv
      exact htrue kv (mem_commCommitted s.comm t kv hkv).1
    · intro kv hkv
      exact hpos kv (mem_commCommitted s.comm t kv hkv).1
  | emitFail t hn hne hmem =>
    simp only [CookerInv]
    have hcne : s.comm ≠ [] := by
      intro h0
      rw [h0, nextToCommit] at hn
      simp at hn
      exact hne hn.symm
    obtain ⟨htm, htmin⟩ := nextToCommit_spec s.comm hcne htrue hpos
    rw [hn] at htm htmin
    refine ⟨?_, ?_, ?_, ?_, ?_, ?_, ?_, hprev⟩
    · rw [List.pairwise_append]
      refine ⟨hpw, by simp, ?_⟩
      intro a ha b hb
      rw [List.mem_singleton] at hb
      subst hb
      obtain ⟨kv, hkv, hfst⟩ := List.mem_map.mp htm
      have := hlt a ha kv hkv
      omega
    · intro e he kv hkv
      obtain ⟨hkvmem, hkvne⟩ := mem_commCommitted s.comm t kv hkv
      rcases List.mem_append.mp he with he | he
      · exact hlt e he kv hkvmem
      · rw [List.mem_singleton] at he
        subst he
        have := htmin kv.1 (List.mem_map.mpr ⟨kv, hkvmem, rfl⟩)
        omega
    · intro kv hkv
      exact hle kv (mem_commCommitted s.comm t kv hkv).1
    · intro e he
      rcases List.mem_append.mp he with he | he
      · exact hele e he
      · rw [List.mem_singleton] at he
        subst he
        obtain ⟨kv, hkv, hfst⟩ := List.mem_map.mp htm
        have := hle kv hkv
        omega
    · exact hnd.sublist (commCommitted_keys_sublist s.comm t htm)
    · intro kv hkv
      exact htrue kv (mem_commCommitted s.comm t kv hkv).1
    · intro kv hkv
      exact hpos kv (mem_commCommitted s.comm t kv hkv).1

/-- C1: on every RELP connection, in every reachable interleaving of
reader frames (strictly increasing txnrs), out-of-order
ForwardSucc/ForwardFail completions, queue draining and Cooking-loop
emissions, the txnrs of the responses written by the response cooker are
strictly increasing: any response written earlier has a strictly smaller
txnr than any response written later. -/
theorem relp_responses_strictly_increasing (s : CookerState)
    (h : CookerReachable s) :
    List.Pairwise (fun a b : Int => a < b) s.emitted := by
  have hinv : CookerInv s := by
    induction h with
    | refl =>
      exact ⟨by simp [cookerInit], by simp [cookerInit], by simp [cookerInit],
        by simp [cookerInit], by simp [cookerInit], by simp [cookerInit],
        by simp [cookerInit], by norm_num [cookerInit]⟩
    | tail hsteps hstep ih =>
      exact cookerStep_inv hstep ih
  exact hinv.1

/-- Witness for relp_responses_strictly_increasing: the trace
receive 1, ForwardSucc 1, drain, emit on a fresh connection. -/
theorem relp_responses_strictly_increasing_witness :
    List.Pairwise (fun a b : Int => a < b)
      (CookerState.emitted { comm := [], prevTxnr := 1, succQ := [], failQ := [], successes := [], failures := [], emitted := [1] }) := by
  apply relp_responses_strictly_increasing
  have h1 : CookerStep cookerInit
      { comm := [(1, true)], prevTxnr := 1, succQ := [], failQ := [],
        successes := [], failures := [], emitted := [] } :=
    CookerStep.receive cookerInit 1 (by norm_num [cookerInit])
  have h2 : CookerStep
      { comm := [(1, true)], prevTxnr := 1, succQ := [], failQ := [],
        successes := [], failures := [], emitted := [] }
      { comm := [(1, true)], prevTxnr := 1, succQ := [1], failQ := [],
        successes := [], failures := [], emitted := [] } :=
    CookerStep.forwardSucc _ 1
  have h3 : CookerStep
      { comm := [(1, true)], prevTxnr := 1, succQ := [1], failQ := [],
        successes := [], failures := [], emitted := [] }
      { comm := [(1, true)], prevTxnr := 1, succQ := [], failQ := [],
        successes := [1], failures := [], emitted := [] } :=
    CookerStep.drainSucc _ 1 [] rfl
  have h4 : CookerStep
      { comm := [(1, true)], prevTxnr := 1, succQ := [], failQ := [],
        successes := [1], failures := [], emitted := [] }
      { comm := [], prevTxnr := 1, succQ := [], failQ := [],
        successes := [], failures := [], emitted := [1] } :=
    CookerStep.emitSucc _ 1 (by decide) (by decide) (by decide)
  exact Relation.ReflTransGen.tail
    (Relation.ReflTransGen.tail
      (Relation.ReflTransGen.tail (Relation.ReflTransGen.single h1) h2) h3) h4

/-! ## The plugin controller listen loop (PluginController.listen / Start) -/

/-- The InfosAndError value the listen goroutine sends once to Start. -/
structure InfosAndError where
  infos : List (List Char)
  err : Option (List Char)
deriving DecidableEq, Repr

/-- External decoders the listen loop consults: msgpack UnmarshalMsg for
syslog bodies and json.Unmarshal for listener infos and metrics
(collaborator interfaces, kept abstract). -/
structure PluginDecoders where
  unmarshalMsg : List Char → Option (List Char)
  jsonInfos : List Char → Option (List (List Char))
  jsonMetrics : List Char → Option (List (List Char))

/-- State of the listen goroutine: the initialized flag, the value sent
through once.Do to the start channel (none while nothing was sent), the
kill flag set on misbehaviour, the normal-stop flag, and the observable
sinks (stashed messages, metrics, reported infos). -/
structure ListenState where
  initialized : Bool
  onceSent : Option InfosAndError
  kill : Bool
  normalStop : Bool
  stashed : List (List Char)
  metricsSent : List (List (List Char))
  lastInfos : List (List Char)
deriving DecidableEq, Repr

/-- sync.Once.Do on the start channel send: only the first value wins. -/
def onceDo (cur : Option InfosAndError) (v : InfosAndError) : Option InfosAndError :=
  match cur with
  | some x => some x
  | none => some v

def listenInit : ListenState :=
  { initialized := false, onceSent := none, kill := false, normalStop := false,
    stashed := [], metricsSent := [], lastInfos := [] }

/-- The scanner loop of PluginController.listen (kafkadest.go part,
lines 650-796) over the stream of framed child messages: each message is
split into command and body; a syslog message before `started` sends the
error "Plugin sent a syslog message before being initialized" through
once.Do, sets kill and returns; the remaining branches mirror the source
switch. -/
def listenLoop (dec : PluginDecoders) : ListenState → List (List Char) → ListenState
  | st, [] => st
  | st, text :: rest =>
    let parts := splitNChar ' ' 2 text
    let command := parts.getD 0 []
    if command = "syslog".data then
      if parts.length = 2 then
        if !st.initialized then
          { st with onceSent := onceDo st.onceSent ⟨[], some "Plugin sent a syslog message before being initialized".data⟩, kill := true }
        else
          match dec.unmarshalMsg (parts.getD 1 []) with
          | some m => listenLoop dec { st with stashed := st.stashed ++ [m] } rest
          | none => { st with kill := true }
      else listenLoop dec st rest
    else if command = "started".data then
      if parts.length = 2 then
        match dec.jsonInfos (parts.getD 1 []) with
        | some infos =>
          listenLoop dec { st with initialized := true, onceSent := onceDo st.onceSent ⟨infos, none⟩ } rest
        | none =>
          { st with onceSent := onceDo st.onceSent ⟨[], some "invalid listener info json".data⟩, kill := true }
      else listenLoop dec st rest
    else if command = "infos".data then
      if parts.length = 2 then
        match dec.jsonInfos (parts.getD 1 []) with
        | some newinfos => listenLoop dec { st with lastInfos := newinfos } rest
        | none => listenLoop dec st rest
      else listenLoop dec st rest
    else if command = "stopped".data then
      { st with normalStop := true }
    else if command = "shutdown".data then
      listenLoop dec st rest
    else if command = "starterror".data then
      if parts.length = 2 then
        listenLoop dec { st with onceSent := onceDo st.onceSent ⟨[], some (parts.getD 1 [])⟩ } rest
      else listenLoop dec st rest
    else if command = "conferror".data then
      if parts.length = 2 then
        listenLoop dec { st with onceSent := onceDo st.onceSent ⟨[], some (parts.getD 1 [])⟩ } rest
      else listenLoop dec st rest
    else if command = "nolistenererror".data then
      listenLoop dec { st with onceSent := onceDo st.onceSent ⟨[], some "No listener".data⟩ } rest
    else if command = "metrics".data then
      if parts.length = 2 then
        match dec.jsonMetrics (parts.getD 1 []) with
        | some fams => listenLoop dec { st with metricsSent := st.metricsSent ++ [fams] } rest
        | none => { st with kill := true }
      else { st with kill := true }
    else
      { st with onceSent := onceDo st.onceSent ⟨[], some "Unexpected message from plugin".data⟩, kill := true }

/-- What PluginController.Start observes for a given stream of child
messages: the deferred once.Do supplies "Unexpected end of plugin before
it was initialized" only when nothing was sent during the loop; a set
kill flag means the defer kills the child, whereupon the reaper started
by Create closes ShutdownChan. -/
structure StartOutcome where
  startErr : Option (List Char)
  infos : List (List Char)
  killed : Bool
  shutdownChanClosed : Bool
deriving DecidableEq, Repr

def pluginStartOutcome (dec : PluginDecoders) (msgs : List (List Char)) :
    StartOutcome :=
  let final := listenLoop dec listenInit msgs
  let sent := (onceDo final.onceSent
    ⟨[], some "Unexpected end of plugin before it was initialized".data⟩).getD ⟨[], none⟩
  { startErr := sent.err, infos := sent.infos, killed := final.kill,
    shutdownChanClosed := final.kill }

/-- C8 counterexample to the claim as frozen: a child that emits
`syslog x` before `started` makes Start return the error "Plugin sent a
syslog message before being initialized", which differs from the
claimed "Unexpected end of plugin before it was initialized" (that text
is only sent by the deferred once.Do when nothing was sent during the
loop, and here the syslog branch sent first). -/
theorem plugin_syslog_before_started_counterexample :
    (pluginStartOutcome ⟨fun _ => none, fun _ => none, fun _ => none⟩
      ["syslog x".data]).startErr =
      some "Plugin sent a syslog message before being initialized".data ∧
    (pluginStartOutcome ⟨fun _ => none, fun _ => none, fun _ => none⟩
      ["syslog x".data]).killed = true ∧
    "Plugin sent a syslog message before being initialized".data ≠
      "Unexpected end of plugin before it was initialized".data := by
  exact ⟨by decide, by decide, by decide⟩

/-- C8 (amended): whenever the child emits a `syslog` message with a
payload before having emitted `started`, the supervisor kills the child,
Start returns the error "Plugin sent a syslog message before being
initialized", and ShutdownChan is closed (by the reaper once the killed
child exits). -/
theorem plugin_syslog_before_started (dec : PluginDecoders)
    (body : List Char) (rest : List (List Char)) :
    pluginStartOutcome dec (("syslog ".data ++ body) :: rest) =
      { startErr := some "Plugin sent a syslog message before being initialized".data,
        infos := [], killed := true, shutdownChanClosed := true } := by
  have heq : ("syslog ".data ++ body : List Char) = "syslog".data ++ ' ' :: body := by
    simp
  have hsplit : splitNChar ' ' 2 ("syslog ".data ++ body) = ["syslog".data, body] := by
    rw [heq, show (2 : Nat) = 0 + 2 from rfl,
      splitNChar_step ' ' 0 "syslog".data body (by decide)]
    rfl
  simp only [pluginStartOutcome, listenLoop, hsplit]
  rfl

/-! ## The binder listen handling (binderOne, binderserver.go:256-284) -/

/-- Modelled from the spec: binder.IsStream is repository code not under
src/; spec 4.F lists the stream networks tcp, tcp4, tcp6, unix,
unixpacket. -/
def isStreamNet (lnet : List Char) : Bool :=
  lnet = "tcp".data || lnet = "tcp4".data || lnet = "tcp6".data ||
    lnet = "unix".data || lnet = "unixpacket".data

/-- The NET part of a NET:ADDRSPEC address (strings.SplitN(addr, ":", 2)). -/
def netOfAddr (addr : List Char) : List Char :=
  (splitNChar ':' 2 addr).getD 0 []

/-- Replies written on the control socket and listeners retained while
handling one `listen` request. -/
structure BinderListenResult where
  writes : List (List Char)
  listeners : List (List Char)
deriving DecidableEq, Repr

/-- The `listen` branch of binderOne for one address list: a stream
address that binds successfully is answered `confirmlisten ADDR` (no
trailing newline in the source) and the listener is retained; a failed
bind is answered `error ADDR MESSAGE` (no trailing newline); a packet
address is bound and the new connection is pushed to the packet channel,
whose handler sends `newconn UID ADDR\n` with the FD. The bind results
and the ULID generator are oracles. -/
def binderHandleListen (bindStream : List Char → Option (List Char))
    (bindPacket : List Char → Option (List Char))
    (uidOf : List Char → List Char)
    (addrs : List (List Char)) : BinderListenResult :=
  addrs.foldl (fun acc addr =>
    if isStreamNet (netOfAddr addr) then
      match bindStream addr with
      | none =>
        { acc with writes := acc.writes ++ ["confirmlisten ".data ++ addr], listeners := acc.listeners ++ [addr] }
      | some e =>
        { acc with writes := acc.writes ++ ["error ".data ++ addr ++ " ".data ++ e] }
    else
      match bindPacket addr with
      | none =>
        { acc with writes := acc.writes ++ ["newconn ".data ++ uidOf addr ++ " ".data ++ addr ++ "\n".data] }
      | some e =>
        { acc with writes := acc.writes ++ ["error ".data ++ addr ++ " ".data ++ e] })
    { writes := [], listeners := [] }

/-- C9 counterexample to the claim as frozen: the reply to a successful
stream bind is exactly `confirmlisten tcp:0.0.0.0:2514` with no trailing
newline - binderserver.go:264 writes fmt.Sprintf("confirmlisten %s",
addr) without a newline (unlike `stopped` and `newconn`), so the claimed
newline-terminated reply line is false. -/
theorem binder_confirmlisten_not_newline_terminated :
    (binderHandleListen (fun _ => none) (fun _ => none) (fun _ => [])
      ["tcp:0.0.0.0:2514".data]).writes = ["confirmlisten tcp:0.0.0.0:2514".data] ∧
    ("confirmlisten tcp:0.0.0.0:2514".data).getLast? ≠ some '\n' ∧
    (binderHandleListen (fun _ => some "EPERM".data) (fun _ => none) (fun _ => [])
      ["tcp:0.0.0.0:80".data]).writes = ["error tcp:0.0.0.0:80 EPERM".data] ∧
    ("error tcp:0.0.0.0:80 EPERM".data).getLast? ≠ some '\n' := by
  exact ⟨by decide, by decide, by decide, by decide⟩

/-- C9 (amended): for every `listen` request naming a stream address
(tcp, tcp4, tcp6, unix, unixpacket), the binder replies
`confirmlisten ADDR` on the control channel when the bind succeeds and
retains the listener, and replies `error ADDR MESSAGE` when the bind
fails; these two replies are written without a trailing newline
(`stopped` and `newconn` are newline-terminated, these are not). -/
theorem binder_listen_stream_replies (bindStream : List Char → Option (List Char))
    (bindPacket : List Char → Option (List Char)) (uidOf : List Char → List Char)
    (addr : List Char) (hstream : isStreamNet (netOfAddr addr) = true) :
    (bindStream addr = none →
      binderHandleListen bindStream bindPacket uidOf [addr] =
        { writes := ["confirmlisten ".data ++ addr], listeners := [addr] }) ∧
    (∀ e, bindStream addr = some e →
      binderHandleListen bindStream bindPacket uidOf [addr] =
        { writes := ["error ".data ++ addr ++ " ".data ++ e], listeners := [] }) := by
  constructor
  · intro hb
    simp [binderHandleListen, hstream, hb]
  · intro e hb
    simp [binderHandleListen, hstream, hb]

/-- Witness for binder_listen_stream_replies on a concrete tcp address
with a succeeding bind oracle. -/
theorem binder_listen_stream_replies_witness :
    binderHandleListen (fun _ => none) (fun _ => none) (fun _ => [])
      ["tcp:0.0.0.0:2514".data] =
      { writes := ["confirmlisten ".data ++ "tcp:0.0.0.0:2514".data],
        listeners := ["tcp:0.0.0.0:2514".data] } :=
  (binder_listen_stream_replies (fun _ => none) (fun _ => none) (fun _ => [])
    "tcp:0.0.0.0:2514".data (by decide)).1 rfl
